import Mathlib

/-!
Verification of the effectgenerator video pipeline (`src/effect_generator.cpp`,
`src/main.cpp`) against its natural-language specification.

Shallow embedding conventions:
* raw RGB frames (`std::vector<uint8_t>` of size `width*height*3`) are `List Nat`;
* C `int` is `Int`, with `INT_MAX` the literal `2147483647`;
* C `float` arithmetic of the fade envelope is modelled over `ℚ` (the claims
  under test concern the exact piecewise-linear shape, not ULP rounding);
* a C cast `(int)x` truncates toward zero (`truncInt`), `std::round` rounds
  half away from zero (`cppRound`);
* the background video decoded by the ffmpeg child process is a `List Frame`
  of whole frames; `readVideoFrame` succeeds exactly while frames remain and
  leaves the buffer unchanged on failure (end of stream);
* an `Effect*` is a state machine `EffectModel σ`: each virtual method maps
  the effect state (and its by-reference arguments) to the updated state;
* the worker loops of `VideoGenerator::generate` are bounded by
  `while (stageFrameIndex < totalFrames)`; they are embedded structurally with
  an explicit fuel equal to `totalFrames.toNat`, which is exactly the number
  of iterations the C++ loop condition allows from index 0;
* each bounded queue has a single producer and a single consumer and the
  producer pushes every packet before closing its own queue, so the sequence
  of packets a consumer pops is the sequence its producer pushed, in FIFO
  order, for every thread interleaving; the data flow of the pipeline is
  therefore the deterministic stream composition embedded below.  The queue
  itself (`QueueState` with `pushStep`/`popStep`/`closeStep`) is modelled
  separately as an atomic-step state machine (each operation runs under the
  queue mutex; a blocked operation is one whose wait condition is false).
-/

/-- One raw RGB frame: `width*height*3` bytes. -/
abbrev Frame : Type := List Nat

/-- The `FramePacket` from `VideoGenerator::generate`: frame payload, logical
frame index, end-of-stream marker (defaults `frameIndex = 0`, `end = false`;
the end packet carries a default-constructed empty frame). -/
structure FramePacket where
  frame : Frame
  frameIndex : Int
  isEnd : Bool
  deriving DecidableEq

/-- The end packet pushed by every stage when its loop finishes. -/
def endPacket : FramePacket := ⟨[], 0, true⟩

/-- The C constant `INT_MAX`, the sentinel for an unbounded (auto-detect) run. -/
def INT_MAX : Int := 2147483647

/-- C cast `(int)q`: truncation toward zero. -/
def truncInt (q : ℚ) : Int := q.num.tdiv q.den

/-- Rounding as `std::round`: round half away from zero. -/
def cppRound (q : ℚ) : Int :=
  if 0 ≤ q then truncInt (q + 1/2) else - truncInt (1/2 - q)

/-- Configuration of a `VideoGenerator` as far as `generate` reads it:
dimensions, fps, fade envelope parameters, background flags. -/
structure GenCfg where
  width : Int
  height : Int
  fps : Int
  fadeDuration : ℚ
  maxFadeRatio : ℚ
  hasBackground : Bool
  isVideo : Bool

/-- Bytes in one raw frame: `width_ * height_ * 3`. -/
def GenCfg.frameBytes (cfg : GenCfg) : Nat := (cfg.width * cfg.height * 3).toNat

/-- The blank canvas `std::fill(frame.begin(), frame.end(), 0)`. -/
def zeroFrame (cfg : GenCfg) : Frame := List.replicate cfg.frameBytes 0

/-- The method `VideoGenerator::getFadeMultiplier` (effect_generator.cpp:611-622). -/
def getFadeMultiplier (cfg : GenCfg) (frameNumber totalFrames : Int) : ℚ :=
  if cfg.fadeDuration ≤ 0 then cfg.maxFadeRatio
  else
    let fadeFrames : Int := truncInt (cfg.fadeDuration * (cfg.fps : ℚ))
    if frameNumber < fadeFrames then
      (frameNumber : ℚ) * cfg.maxFadeRatio / (fadeFrames : ℚ)
    else if frameNumber ≥ totalFrames - fadeFrames then
      ((totalFrames - frameNumber : Int) : ℚ) * cfg.maxFadeRatio / (fadeFrames : ℚ)
    else cfg.maxFadeRatio

/-- Duration resolution of `VideoGenerator::generate`
(effect_generator.cpp:629-645).  `probeSecs` is the value returned by
`probeVideoDuration` (that function returns `-1.0` on every failure path and
otherwise a parsed value that it has checked to be `> 0`); `generate` treats
`probeSecs > 0` as probe success.  `none` is the `return false` of the
"No duration provided and no background video available" branch. -/
def resolveTotalFrames (isVideo : Bool) (durationSec fps : Int) (probeSecs : ℚ) :
    Option Int :=
  if isVideo ∧ durationSec ≤ 0 then
    if probeSecs > 0 then some (cppRound (probeSecs * (fps : ℚ)))
    else some INT_MAX
  else if durationSec > 0 then some (fps * durationSec)
  else none

/-! ## The bounded frame queue (`FrameQueue`, effect_generator.cpp:681-718)

Each public operation runs under the queue mutex, so operations are atomic
steps.  A blocking operation is modelled as a step that is only enabled when
its condition-variable predicate holds: `none` means the calling thread is
still blocked and no state transition happens. -/

/-- State of one `FrameQueue`: the protected deque and the closed flag. -/
structure QueueState where
  items : List FramePacket
  closed : Bool
  deriving DecidableEq

/-- A freshly constructed queue. -/
def QInit : QueueState := ⟨[], false⟩

/-- The method `FrameQueue::push`: waits until `closed_ || queue_.size() < capacity_`;
then fails if closed, otherwise enqueues at the back and returns true. -/
def pushStep (c : Nat) (s : QueueState) (p : FramePacket) :
    Option (QueueState × Bool) :=
  if s.closed ∨ s.items.length < c then
    if s.closed then some (s, false)
    else some ({ s with items := s.items ++ [p] }, true)
  else none

/-- The method `FrameQueue::pop`: waits until `closed_ || !queue_.empty()`; then fails if
the deque is empty (necessarily closed), otherwise dequeues the front. -/
def popStep (s : QueueState) : Option (QueueState × Bool × Option FramePacket) :=
  if s.closed ∨ s.items ≠ [] then
    match s.items with
    | [] => some (s, false, none)
    | x :: xs => some ({ s with items := xs }, true, some x)
  else none

/-- The method `FrameQueue::close`: sets the closed flag (and wakes all waiters). -/
def closeStep (s : QueueState) : QueueState := { s with closed := true }

/-- Repeatedly pop, collecting the returned packets until pop fails or the
fuel runs out; with fuel `s.items.length` this is the full drain. -/
def drainAux : Nat → QueueState → List FramePacket
  | 0, _ => []
  | fuel + 1, s =>
    match popStep s with
    | some (s', true, some x) => x :: drainAux fuel s'
    | _ => []

/-- Drain a queue by popping until pop fails. -/
def drain (s : QueueState) : List FramePacket := drainAux s.items.length s

/-- Labels for the queue operations. -/
inductive QOp where
  | push (p : FramePacket)
  | pop
  | close
  deriving DecidableEq

/-- One enabled atomic queue operation. -/
inductive QStep (c : Nat) : QueueState → QOp → QueueState → Prop where
  | push (s : QueueState) (p : FramePacket) (s' : QueueState) (b : Bool)
      (h : pushStep c s p = some (s', b)) : QStep c s (.push p) s'
  | pop (s s' : QueueState) (b : Bool) (o : Option FramePacket)
      (h : popStep s = some (s', b, o)) : QStep c s .pop s'
  | close (s : QueueState) : QStep c s .close (closeStep s)

/-- States reachable from a freshly constructed queue of capacity `c`. -/
def QReachable (c : Nat) (s : QueueState) : Prop :=
  Relation.ReflTransGen (fun a b => ∃ op, QStep c a op b) QInit s

/-- A producer blocked inside `push`: the queue is open and full, so the
`cvNotFull_` wait predicate is false. -/
def pushBlocked (c : Nat) (s : QueueState) : Prop :=
  s.closed = false ∧ c ≤ s.items.length

/-! ## Effects and the stage workers (effect_generator.cpp:743-811) -/

/-- An `Effect*` as the pipeline uses it: every virtual method becomes a
state transformer.  `renderFrame` and `postProcess` also take and return the
by-reference frame; `postProcess` additionally returns the `dropFrame` flag;
`initFn` is `initialize(width, height, fps)`. -/
structure EffectModel (σ : Type) where
  renderFrame : σ → Frame → Bool → ℚ → σ × Frame
  postProcess : σ → Frame → Int → Int → σ × Frame × Bool
  update : σ → σ
  initFn : σ → Int → Int → Int → σ × Bool
  setTotalFrames : σ → Int → σ
  setGlobalWarmupSeconds : σ → ℚ → σ

/-- An effect whose `postProcess` never sets the drop flag. -/
def NeverDrops {σ : Type} (e : EffectModel σ) : Prop :=
  ∀ s f l t, (e.postProcess s f l t).2.2 = false

/-- Two effects that agree on everything except possibly the `dropFrame`
flags their `postProcess` chooses. -/
def DropVariant {σ : Type} (e e' : EffectModel σ) : Prop :=
  e.renderFrame = e'.renderFrame ∧ e.update = e'.update ∧
  ∀ s f l t, (e.postProcess s f l t).1 = (e'.postProcess s f l t).1 ∧
    (e.postProcess s f l t).2.1 = (e'.postProcess s f l t).2.1

/-- Wrap an effect so that its state also counts the `update()` calls. -/
def countUpdates {σ : Type} (e : EffectModel σ) : EffectModel (σ × Nat) where
  renderFrame := fun s f b q =>
    ((( e.renderFrame s.1 f b q).1, s.2), (e.renderFrame s.1 f b q).2)
  postProcess := fun s f l t =>
    ((( e.postProcess s.1 f l t).1, s.2), (e.postProcess s.1 f l t).2)
  update := fun s => (e.update s.1, s.2 + 1)
  initFn := fun s w h fr => ((( e.initFn s.1 w h fr).1, s.2), (e.initFn s.1 w h fr).2)
  setTotalFrames := fun s n => (e.setTotalFrames s.1 n, s.2)
  setGlobalWarmupSeconds := fun s q => (e.setGlobalWarmupSeconds s.1 q, s.2)

/-- The per-stage fade lambda `computeStageFade`
(effect_generator.cpp:720-729). -/
def computeStageFade (cfg : GenCfg) (autoDetect : Bool) (totalFrames : Int)
    (frameIndex : Int) (stageHasBackground : Bool) : ℚ :=
  if stageHasBackground = false then 1
  else if autoDetect then
    let fadeFrames : Int := truncInt (cfg.fadeDuration * (cfg.fps : ℚ))
    if fadeFrames ≤ 0 then 1
    else if frameIndex < fadeFrames then (frameIndex : ℚ) / (fadeFrames : ℚ)
    else 1
  else getFadeMultiplier cfg frameIndex totalFrames

/-- The per-frame body shared by all stage workers
(effect_generator.cpp:782-787): compute the stage fade, `renderFrame`,
`postProcess` (with `autoDetectDuration ? logicalFrame : totalFrames`),
`update`.  Returns the new effect state, the processed frame and the
`dropFrame` flag. -/
def effectStep {σ : Type} (cfg : GenCfg) (e : EffectModel σ) (autoDetect : Bool)
    (totalFrames : Int) (stageHasBackground : Bool) (s : σ) (frame : Frame)
    (logicalFrame : Int) : σ × Frame × Bool :=
  let fadeMultiplier := computeStageFade cfg autoDetect totalFrames logicalFrame
    stageHasBackground
  let r1 := e.renderFrame s frame stageHasBackground fadeMultiplier
  let r2 := e.postProcess r1.1 r1.2 logicalFrame
    (if autoDetect then logicalFrame else totalFrames)
  (e.update r2.1, r2.2.1, r2.2.2)

/-- One record per loop iteration that reached the effect calls: the logical
frame index, the input frame handed to `renderFrame`, and the drop flag the
effect chose. -/
structure StageRec where
  idx : Int
  fr : Frame
  dropped : Bool
  deriving DecidableEq

/-- Result of the stage-0 worker loop. -/
structure Stage0Result (σ : Type) where
  outs : List FramePacket
  trace : List StageRec
  state : σ
  finalIndex : Int
  ended : Bool
  deriving DecidableEq

/-- Result of a stage-`k` (`k > 0`) worker loop. -/
structure StageKResult (σ : Type) where
  outs : List FramePacket
  trace : List StageRec
  state : σ
  deriving DecidableEq

/-- The stage-0 worker loop (effect_generator.cpp:750-800 with `stage == 0`).
`fuel` is the number of iterations `while (stageFrameIndex < totalFrames)`
still allows (the wrapper passes `totalFrames.toNat`, and `i` starts at 0);
`bg` is `backgroundBuffer_`, `src` the remaining whole frames of the
background video stream.  A failed read (`src = []`) in auto-detect mode sets
`sourceEnded` and breaks; in a bounded run it falls through with the buffer
unchanged.  `outs` is the sequence of packets pushed to the stage's queue
(push to the worker's own queue never fails: only this producer closes it,
after the loop), `finalIndex` the final `stageFrameIndex` stored into
`sourceFrameCount`. -/
def runStage0Loop {σ : Type} (cfg : GenCfg) (e : EffectModel σ)
    (autoDetect : Bool) (totalFrames : Int) :
    Nat → Int → σ → Frame → List Frame → Stage0Result σ
  | 0, i, s, _, _ => ⟨[], [], s, i, false⟩
  | fuel + 1, i, s, bg, src =>
    let readsVideo := cfg.isVideo && cfg.hasBackground
    if readsVideo && src.isEmpty && autoDetect then ⟨[], [], s, i, true⟩
    else
      let bg' := if readsVideo then src.headD bg else bg
      let src' := if readsVideo then src.tail else src
      let frame := if cfg.hasBackground then bg' else zeroFrame cfg
      let st := effectStep cfg e autoDetect totalFrames cfg.hasBackground s frame i
      let r := runStage0Loop cfg e autoDetect totalFrames fuel (i + 1) st.1 bg' src'
      ⟨(if st.2.2 then [] else [⟨st.2.1, i, false⟩]) ++ r.outs,
        ⟨i, frame, st.2.2⟩ :: r.trace, r.state, r.finalIndex, r.ended⟩

/-- A stage-`k` worker loop for `k > 0` (effect_generator.cpp:750-800,
`stage > 0` branch).  `inputs` is the sequence of packets the upstream
producer pushes (all its data packets followed by its end packet); popping
from an exhausted closed queue (`inputs = []`) or receiving the end packet
breaks the loop.  `stageHasBackground` is true because `stage > 0`.  The
loop counter only enforces the `while (stageFrameIndex < totalFrames)`
bound, embedded as the fuel. -/
def runStageKLoop {σ : Type} (cfg : GenCfg) (e : EffectModel σ)
    (autoDetect : Bool) (totalFrames : Int) :
    Nat → σ → List FramePacket → StageKResult σ
  | 0, s, _ => ⟨[], [], s⟩
  | _ + 1, s, [] => ⟨[], [], s⟩
  | fuel + 1, s, pkt :: rest =>
    if pkt.isEnd then ⟨[], [], s⟩
    else
      let st := effectStep cfg e autoDetect totalFrames true s pkt.frame pkt.frameIndex
      let r := runStageKLoop cfg e autoDetect totalFrames fuel st.1 rest
      ⟨(if st.2.2 then [] else [⟨st.2.1, pkt.frameIndex, false⟩]) ++ r.outs,
        ⟨pkt.frameIndex, pkt.frame, st.2.2⟩ :: r.trace, r.state⟩

/-- The cast `(uint8_t)(packet.frame[j] * fadeMultiplier)`: scale one byte by the fade
multiplier and truncate. -/
def byteScale (b : Nat) (q : ℚ) : Nat := (truncInt ((b : ℚ) * q)).toNat

/-- The collector's whole-frame fade darkening
(effect_generator.cpp:824-831): applied only when there is no background,
a positive fade duration, a bounded run, and the multiplier is below 1. -/
def collectorFrame (cfg : GenCfg) (autoDetect : Bool) (totalFrames : Int)
    (pkt : FramePacket) : Frame :=
  if cfg.hasBackground = false ∧ 0 < cfg.fadeDuration ∧ autoDetect = false then
    let fm := getFadeMultiplier cfg pkt.frameIndex totalFrames
    if fm < 1 then pkt.frame.map (fun b => byteScale b fm) else pkt.frame
  else pkt.frame

/-- The collector loop (effect_generator.cpp:815-838): pop until pop fails or
the end packet arrives; each earlier packet is faded (when applicable) and
written to the encoder.  Returns the written packets in order. -/
def collectorLoop (cfg : GenCfg) (autoDetect : Bool) (totalFrames : Int) :
    List FramePacket → List FramePacket
  | [] => []
  | pkt :: rest =>
    if pkt.isEnd then []
    else { pkt with frame := collectorFrame cfg autoDetect totalFrames pkt } ::
      collectorLoop cfg autoDetect totalFrames rest

/-- Run the stages after stage 0, front to back: each consumes the packet
sequence its predecessor pushed (data packets then the end packet) and pushes
its own.  Returns the per-stage pushed data packets, the per-stage traces and
the packet sequence offered to the collector. -/
def runStagesAll {σ : Type} (cfg : GenCfg) (autoDetect : Bool)
    (totalFrames : Int) :
    List (EffectModel σ × σ) → List FramePacket →
    List (List FramePacket) × List (List StageRec) × List FramePacket
  | [], input => ([], [], input)
  | (e, s) :: rest, input =>
    let r := runStageKLoop cfg e autoDetect totalFrames totalFrames.toNat s input
    let rs := runStagesAll cfg autoDetect totalFrames rest (r.outs ++ [endPacket])
    (r.outs :: rs.1, r.trace :: rs.2.1, rs.2.2)

/-- Everything observable about one pipeline run (effect_generator.cpp:731-850):
stage 0's pushed packets, trace, final `sourceFrameCount` and `sourceEnded`
flag; the same per later stage; and the packets the collector writes. -/
structure PipelineResult (σ : Type) where
  stage0Out : List FramePacket
  stage0Trace : List StageRec
  finalIndex : Int
  ended : Bool
  stagesOut : List (List FramePacket)
  stagesTrace : List (List StageRec)
  collected : List FramePacket
  deriving DecidableEq

/-- The full fan-out/collect pipeline of `VideoGenerator::generate` for a
given effect list, initial background buffer and background video stream. -/
def runPipelineFull {σ : Type} (cfg : GenCfg) (autoDetect : Bool)
    (totalFrames : Int) (effects : List (EffectModel σ × σ)) (bg0 : Frame)
    (src : List Frame) : PipelineResult σ :=
  match effects with
  | [] => ⟨[], [], 0, false, [], [], []⟩
  | (e0, s0) :: rest =>
    let r0 := runStage0Loop cfg e0 autoDetect totalFrames totalFrames.toNat 0 s0 bg0 src
    let rs := runStagesAll cfg autoDetect totalFrames rest (r0.outs ++ [endPacket])
    ⟨r0.outs, r0.trace, r0.finalIndex, r0.ended, rs.1, rs.2.1,
      collectorLoop cfg autoDetect totalFrames rs.2.2⟩

/-! ## `VideoGenerator::generate` end to end (effect_generator.cpp:624-854)

`GenEvent` has one constructor per observable action of `generate`: each
`std::cout`/`std::cerr` message, the ffprobe invocation, the opening and
closing of the encoder subprocess, and the spawning of each worker thread. -/

/-- Observable actions of `VideoGenerator::generate`, in program order. -/
inductive GenEvent where
  | msgFFmpegPath
  | probeDuration
  | msgAutoDetected (totalFrames : Int)
  | msgCouldNotProbe
  | msgGenerating (totalFrames : Int)
  | errNoDuration
  | errEffectInit
  | msgWarmup
  | openOutput
  | openOutputFailed
  | spawnWorker (k : Nat)
  | msgProgress (seconds : Int)
  | closeOutput
  | msgInputVideoEnded (frames : Int)
  | msgVideoSaved
  deriving DecidableEq

/-- Messages printed while resolving the duration
(effect_generator.cpp:630-641): the probe runs only when there is a video
background and no explicit duration. -/
def resolutionEvents (isVideo : Bool) (durationSec : Int) (_fps : Int) (probeSecs : ℚ)
    (totalFrames : Int) : List GenEvent :=
  if isVideo ∧ durationSec ≤ 0 then
    if probeSecs > 0 then [.probeDuration, .msgAutoDetected totalFrames]
    else [.probeDuration, .msgCouldNotProbe]
  else [.msgGenerating totalFrames]

/-- The effect-setup loop (effect_generator.cpp:648-658): for each effect in
order, `setTotalFrames` (only when the total is known), then
`setGlobalWarmupSeconds(max(0, warmup))`, then `initialize`; the first
`initialize` returning false aborts with `none`.  (The `if (!effect)` null
check has no counterpart: the embedding has no null effects.) -/
def initEffects {σ : Type} (cfg : GenCfg) (warmup : ℚ) (totalFrames : Int) :
    List (EffectModel σ × σ) → Option (List (EffectModel σ × σ))
  | [] => some []
  | (e, s) :: rest =>
    let s1 := if totalFrames ≠ INT_MAX then e.setTotalFrames s totalFrames else s
    let s2 := e.setGlobalWarmupSeconds s1 (max 0 warmup)
    let r := e.initFn s2 cfg.width cfg.height cfg.fps
    if r.2 then (initEffects cfg warmup totalFrames rest).map ((e, r.1) :: ·)
    else none

/-- The warmup loop (effect_generator.cpp:660-669): advance every effect by
`warmupFrames` calls to `update()`. -/
def warmupEffects {σ : Type} (n : Nat) (effects : List (EffectModel σ × σ)) :
    List (EffectModel σ × σ) :=
  effects.map (fun es => (es.1, es.1.update^[n] es.2))

/-- Progress lines of the collector (effect_generator.cpp:834-837): after the
`w+1`-st written frame, print `writtenFrames / fps_` when
`writtenFrames % fps_ == 0` (C `int` division and remainder). -/
def progressEvents (written : Nat) (fps : Int) : List GenEvent :=
  (List.range written).filterMap (fun w =>
    if ((w : Int) + 1).tmod fps = 0 then some (.msgProgress (((w : Int) + 1).tdiv fps))
    else none)

/-- The method `VideoGenerator::generate` (effect_generator.cpp:624-854).  `warmup` is
`warmupSeconds_`, `probeSecs` what `probeVideoDuration` would return,
`outputOpens` whether `startFFmpegOutput` succeeds, `bg0` the background
buffer content at entry, `src` the remaining background video stream.
Returns the boolean result and the ordered observable events. -/
def generateRun {σ : Type} (cfg : GenCfg) (warmup : ℚ)
    (effects : List (EffectModel σ × σ)) (durationSec : Int) (probeSecs : ℚ)
    (outputOpens : Bool) (bg0 : Frame) (src : List Frame) :
    Bool × List GenEvent :=
  match effects with
  | [] => (false, [])
  | _ :: _ =>
    match resolveTotalFrames cfg.isVideo durationSec cfg.fps probeSecs with
    | none => (false, [.msgFFmpegPath, .errNoDuration])
    | some totalFrames =>
      let evs0 := .msgFFmpegPath ::
        resolutionEvents cfg.isVideo durationSec cfg.fps probeSecs totalFrames
      let autoDetect : Bool := totalFrames == INT_MAX
      match initEffects cfg warmup totalFrames effects with
      | none => (false, evs0 ++ [.errEffectInit])
      | some inited =>
        let warmupFrames := cppRound (max 0 warmup * (cfg.fps : ℚ))
        let warmed := warmupEffects warmupFrames.toNat inited
        let evs1 := evs0 ++ (if 0 < warmupFrames then [.msgWarmup] else [])
        if outputOpens then
          let R := runPipelineFull cfg autoDetect totalFrames warmed bg0 src
          (true, evs1 ++ .openOutput :: (List.range effects.length).map .spawnWorker
            ++ progressEvents R.collected.length cfg.fps ++ [.closeOutput]
            ++ (if R.ended ∧ autoDetect then [.msgInputVideoEnded R.finalIndex] else [])
            ++ [.msgVideoSaved])
        else (false, evs1 ++ [.openOutputFailed])

/-- The only event of `VideoGenerator::generate` that reports the input
video having ended (printed at effect_generator.cpp:846-850, and only when
`sourceEnded && autoDetectDuration`). -/
def mentionsSourceExhaustion : GenEvent → Bool
  | .msgInputVideoEnded _ => true
  | _ => false

/-! ## The command-line entry point (`main`, src/main.cpp:210-526)

The model starts after argument parsing (the `--help`/`--version`/
`--list-effects`/`--help-<effect>` early returns and the parse loop are
upstream of it): `CliConfig` holds exactly the locals of `main` that the
remaining code reads.  The per-stage effects are abstracted to the boolean
their `initialize` would return, which is all the modelled code consults
(in the `--show` branch). -/

/-- The resolved locals of `main` after the argument-parse loop. -/
structure CliConfig where
  stages : List Bool
  showConfig : Bool
  overwriteOutput : Bool
  output : String
  backgroundImage : String
  backgroundVideo : String

/-- How (and with which exit status) `main` ends, for the modelled region. -/
inductive MainExit where
  | errNoEffect
  | showOk
  | errShowInitFail
  | errNoOutput
  | errOutputExists
  | errBothBackgrounds
  | errBackgroundImage
  | errBackgroundVideo
  | errGenerateFailed
  | success
  deriving DecidableEq

/-- The process exit status of each outcome. -/
def exitCodeOf : MainExit → Int
  | .showOk => 0
  | .success => 0
  | _ => 1

/-- Milestones of `main` after the output-file check: constructing the
`VideoGenerator` and the subprocesses spawned afterwards. -/
inductive MainEvent where
  | constructGenerator
  | spawnImageDecode
  | spawnVideoDecode
  | runGenerate
  deriving DecidableEq

/-- The body of `main` from the `stages.empty()` check onwards (src/main.cpp:412-525).
`fileOpenable out` models `std::fopen(out.c_str(), "rb") != nullptr`;
`bgImageLoads`/`bgVideoLoads`/`generateOk` abstract the results of
`setBackgroundImage`/`setBackgroundVideo`/`generate`. -/
def mainResolved (cfg : CliConfig) (fileOpenable : String → Bool)
    (bgImageLoads bgVideoLoads generateOk : Bool) : MainExit × List MainEvent :=
  if cfg.stages = [] then (.errNoEffect, [])
  else if cfg.showConfig then
    (if cfg.stages.all (· = true) then .showOk else .errShowInitFail, [])
  else if cfg.output = "" then (.errNoOutput, [])
  else if cfg.overwriteOutput = false ∧ cfg.output ≠ "-" ∧
      fileOpenable cfg.output = true then (.errOutputExists, [])
  else if cfg.backgroundImage ≠ "" ∧ cfg.backgroundVideo ≠ "" then
    (.errBothBackgrounds, [])
  else
    let evs := [MainEvent.constructGenerator]
    if cfg.backgroundImage ≠ "" ∧ bgImageLoads = false then
      (.errBackgroundImage, evs ++ [.spawnImageDecode])
    else
      let evs := evs ++ (if cfg.backgroundImage ≠ "" then [.spawnImageDecode] else [])
      if cfg.backgroundVideo ≠ "" ∧ bgVideoLoads = false then
        (.errBackgroundVideo, evs ++ [.spawnVideoDecode])
      else
        let evs := evs ++ (if cfg.backgroundVideo ≠ "" then [.spawnVideoDecode] else [])
        if generateOk then (.success, evs ++ [.runGenerate])
        else (.errGenerateFailed, evs ++ [.runGenerate])

/-! ## Helper notions for the index bookkeeping -/

/-- Frame indices of a packet list. -/
def idxList (l : List FramePacket) : List Int := l.map (·.frameIndex)

/-- Frame indices of a stage trace. -/
def traceIdx (l : List StageRec) : List Int := l.map (·.idx)

/-- Every packet of the list is a data packet. -/
def nonEnd (l : List FramePacket) : Prop := ∀ p ∈ l, p.isEnd = false

/-- A run of `n` consecutive integers starting at `i`. -/
def intRange (i : Int) (n : Nat) : List Int :=
  (List.range n).map (fun k : Nat => i + (k : Int))

lemma intRange_zero (i : Int) : intRange i 0 = [] := rfl

lemma intRange_succ_cons (i : Int) (n : Nat) :
    intRange i (n + 1) = i :: intRange (i + 1) n := by
  simp only [intRange, List.range_succ_eq_map, List.map_cons, List.map_map,
    Nat.cast_zero, add_zero, List.cons.injEq, true_and]
  apply List.map_congr_left
  intro k _
  simp only [Function.comp_apply, Nat.cast_succ]
  ring

lemma intRange_pairwise_lt (i : Int) (n : Nat) :
    (intRange i n).Pairwise (· < ·) := by
  induction n generalizing i with
  | zero => simp [intRange_zero]
  | succ m ih =>
    rw [intRange_succ_cons]
    refine List.Pairwise.cons ?_ (ih (i + 1))
    intro x hx
    simp only [intRange, List.mem_map, List.mem_range] at hx
    obtain ⟨k, _, rfl⟩ := hx
    omega

lemma intRange_mem_lower {i : Int} {n : Nat} {x : Int} (h : x ∈ intRange i n) :
    i ≤ x := by
  simp only [intRange, List.mem_map, List.mem_range] at h
  obtain ⟨k, _, rfl⟩ := h
  omega

/-! ## C3 / C9: the fade envelope -/

lemma truncInt_intCast (n : Int) : truncInt ((n : Int) : ℚ) = n := by
  simp [truncInt, Rat.num_intCast, Rat.den_intCast, Int.tdiv_one]

lemma truncInt_eq_floor {q : ℚ} (h : 0 ≤ q) : truncInt q = ⌊q⌋ := by
  rw [truncInt, Rat.floor_def, Int.tdiv_eq_ediv (Rat.num_nonneg.mpr h)
    (Int.natCast_nonneg _)]

lemma cppRound_nonneg {q : ℚ} (h : 0 ≤ q) : cppRound q = ⌊q + 1/2⌋ := by
  rw [cppRound, if_pos h, truncInt_eq_floor (by linarith)]

lemma fade_unfold_30 (cfg : GenCfg) (hd : cfg.fadeDuration = 1)
    (hf : cfg.fps = 30) (hm : cfg.maxFadeRatio = 1) (n T : Int) :
    getFadeMultiplier cfg n T =
      if n < 30 then (n : ℚ) / 30
      else if n ≥ T - 30 then ((T - n : Int) : ℚ) / 30
      else 1 := by
  have h30 : truncInt (cfg.fadeDuration * (cfg.fps : ℚ)) = 30 := by
    rw [hd, hf, one_mul, truncInt_intCast]
  have hneg : ¬ cfg.fadeDuration ≤ 0 := by rw [hd]; norm_num
  simp only [getFadeMultiplier]
  rw [if_neg hneg, h30, hm]
  split_ifs with h1 h2 <;> push_cast <;> ring

/-- C3: fade envelope of `getFadeMultiplier` with `fadeDuration = 1`,
`fps = 30`, `totalFrames = 300`, `maxFadeRatio = 1`: the multiplier is 0 at
frame 0, ramps linearly up to 1 at frame 30 (value `n/30` on `[0, 30]`),
holds at 1 on `[30, 270]`, then ramps linearly down (value `(300 - n)/30` on
`[270, 300]`), reaching 0 at frame 300. -/
theorem c3_fade_envelope (cfg : GenCfg) (hd : cfg.fadeDuration = 1)
    (hf : cfg.fps = 30) (hm : cfg.maxFadeRatio = 1) :
    getFadeMultiplier cfg 0 300 = 0 ∧
    (∀ n : Int, 0 ≤ n → n ≤ 30 → getFadeMultiplier cfg n 300 = (n : ℚ) / 30) ∧
    (∀ n : Int, 30 ≤ n → n ≤ 270 → getFadeMultiplier cfg n 300 = 1) ∧
    (∀ n : Int, 270 ≤ n → n ≤ 300 →
      getFadeMultiplier cfg n 300 = ((300 - n : Int) : ℚ) / 30) := by
  refine ⟨?_, ?_, ?_, ?_⟩
  · rw [fade_unfold_30 cfg hd hf hm]; norm_num
  · intro n h0 h30
    rw [fade_unfold_30 cfg hd hf hm]
    rcases lt_or_ge n 30 with h | h
    · rw [if_pos h]
    · have h30' : n = 30 := by omega
      subst h30'
      norm_num
  · intro n h1 h2
    rw [fade_unfold_30 cfg hd hf hm]
    rw [if_neg (by omega)]
    rcases lt_or_ge n 270 with h | h
    · rw [if_neg (by omega)]
    · have : n = 270 := by omega
      subst this
      norm_num
  · intro n h1 h2
    rw [fade_unfold_30 cfg hd hf hm]
    rw [if_neg (by omega), if_pos (by omega)]

/-- Witness for C3 at `n = 15` on the rising ramp. -/
theorem c3_witness :
    (⟨1, 1, 30, 1, 1, false, false⟩ : GenCfg).fadeDuration = 1 ∧
    getFadeMultiplier ⟨1, 1, 30, 1, 1, false, false⟩ 15 300 = (15 : ℚ) / 30 :=
  ⟨rfl, (c3_fade_envelope ⟨1, 1, 30, 1, 1, false, false⟩ rfl rfl rfl).2.1 15
    (by decide) (by decide)⟩

/-- C9: `getFadeMultiplier` is total on in-range frames and never divides by
`fadeFrames = 0`: with `fadeDuration ≤ 0` it returns `maxFadeRatio`
immediately, and with `fadeDuration > 0` but `(int)(fadeDuration * fps) = 0`
both ramp-branch guards are false for every `0 ≤ frameNumber < totalFrames`,
so it again returns `maxFadeRatio` without evaluating either division. -/
theorem c9_fade_total (cfg : GenCfg) (n T : Int) (h0 : 0 ≤ n) (hT : n < T) :
    (cfg.fadeDuration ≤ 0 → getFadeMultiplier cfg n T = cfg.maxFadeRatio) ∧
    (0 < cfg.fadeDuration → truncInt (cfg.fadeDuration * (cfg.fps : ℚ)) = 0 →
      ¬(n < truncInt (cfg.fadeDuration * (cfg.fps : ℚ))) ∧
      ¬(n ≥ T - truncInt (cfg.fadeDuration * (cfg.fps : ℚ))) ∧
      getFadeMultiplier cfg n T = cfg.maxFadeRatio) := by
  constructor
  · intro h
    rw [getFadeMultiplier, if_pos h]
  · intro hpos hz
    refine ⟨by omega, by omega, ?_⟩
    rw [getFadeMultiplier, if_neg (by exact not_le.mpr hpos)]
    simp only [hz]
    rw [if_neg (by omega), if_neg (by omega)]

/-- Witness for C9 with `fadeDuration = 1`, `fps = 0`
(`fadeFrames = (int)(1 * 0) = 0`). -/
theorem c9_witness :
    truncInt ((⟨1, 1, 0, 1, 1/2, false, false⟩ : GenCfg).fadeDuration *
      ((⟨1, 1, 0, 1, 1/2, false, false⟩ : GenCfg).fps : ℚ)) = 0 ∧
    getFadeMultiplier ⟨1, 1, 0, 1, 1/2, false, false⟩ 0 1 =
      (⟨1, 1, 0, 1, 1/2, false, false⟩ : GenCfg).maxFadeRatio :=
  ⟨by simp [truncInt], ((c9_fade_total ⟨1, 1, 0, 1, 1/2, false, false⟩ 0 1 (by decide)
    (by decide)).2 (by simp) (by simp [truncInt])).2.2⟩

/-! ## C4 / C5: the bounded queue contract -/

lemma pushStep_closed (c : Nat) (items : List FramePacket) (p : FramePacket) :
    pushStep c ⟨items, true⟩ p = some (⟨items, true⟩, false) := by
  simp [pushStep]

lemma pushStep_open (c : Nat) (items : List FramePacket) (p : FramePacket) :
    pushStep c ⟨items, false⟩ p =
      if items.length < c then some (⟨items ++ [p], false⟩, true) else none := by
  by_cases h : items.length < c <;> simp [pushStep, h]

lemma popStep_nil_closed : popStep ⟨[], true⟩ = some (⟨[], true⟩, false, none) := by
  simp [popStep]

lemma popStep_nil_open : popStep ⟨[], false⟩ = none := by
  simp [popStep]

lemma popStep_cons (x : FramePacket) (xs : List FramePacket) (b : Bool) :
    popStep ⟨x :: xs, b⟩ = some (⟨xs, b⟩, true, some x) := by
  simp [popStep]

lemma drainAux_closed :
    ∀ (l : List FramePacket), drainAux l.length ⟨l, true⟩ = l := by
  intro l
  induction l with
  | nil => rfl
  | cons x xs ih =>
    simp only [List.length_cons, drainAux, popStep_cons]
    rw [ih]

/-- C4: the bounded frame queue contract.  Push returns false without
enqueuing whenever the queue is closed; pop returns false exactly on an
empty closed queue (and then changes nothing); after `close()` pop drains
the remaining items in FIFO order; `close()` is idempotent. -/
theorem c4_queue_contract :
    (∀ (c : Nat) (s : QueueState) (p : FramePacket), s.closed = true →
      pushStep c s p = some (s, false)) ∧
    (∀ (s : QueueState) (r : QueueState × Bool × Option FramePacket),
      popStep s = some r → (r.2.1 = false ↔ s.items = [] ∧ s.closed = true)) ∧
    (∀ s : QueueState, s.items = [] → s.closed = true →
      popStep s = some (s, false, none)) ∧
    (∀ s : QueueState, s.closed = true → drain s = s.items) ∧
    (∀ s : QueueState, closeStep (closeStep s) = closeStep s) ∧
    (∀ s : QueueState, s.closed = true → closeStep s = s) := by
  refine ⟨?_, ?_, ?_, ?_, ?_, ?_⟩
  · intro c s p h
    obtain ⟨items, closed⟩ := s
    subst h
    exact pushStep_closed c items p
  · intro s r h
    obtain ⟨items, closed⟩ := s
    cases items with
    | nil =>
      cases closed with
      | false => rw [popStep_nil_open] at h; exact absurd h (by simp)
      | true =>
        rw [popStep_nil_closed] at h
        injection h with h
        subst h
        simp
    | cons x xs =>
      rw [popStep_cons] at h
      injection h with h
      subst h
      simp
  · intro s h1 h2
    obtain ⟨items, closed⟩ := s
    simp only at h1 h2
    subst h1; subst h2
    exact popStep_nil_closed
  · intro s h
    obtain ⟨items, closed⟩ := s
    simp only at h
    subst h
    exact drainAux_closed items
  · intro s
    rfl
  · intro s h
    obtain ⟨items, closed⟩ := s
    simp only at h
    subst h
    rfl

/-- Witness for C4: a closed queue holding one packet refuses a push,
drains its item, then pop fails. -/
theorem c4_witness :
    pushStep 8 ⟨[endPacket], true⟩ endPacket = some (⟨[endPacket], true⟩, false) ∧
    drain ⟨[endPacket], true⟩ = [endPacket] ∧
    popStep ⟨[], true⟩ = some (⟨[], true⟩, false, none) :=
  ⟨c4_queue_contract.1 8 ⟨[endPacket], true⟩ endPacket rfl,
    c4_queue_contract.2.2.2.1 ⟨[endPacket], true⟩ rfl,
    c4_queue_contract.2.2.1 ⟨[], true⟩ rfl rfl⟩

lemma pushStep_true_elim {c : Nat} {s : QueueState} {p : FramePacket}
    {s' : QueueState} (h : pushStep c s p = some (s', true)) :
    s.closed = false ∧ s.items.length < c ∧ s'.items = s.items ++ [p] := by
  obtain ⟨items, closed⟩ := s
  cases closed with
  | true =>
    rw [pushStep_closed] at h
    injection h with h
    rw [Prod.mk.injEq] at h
    exact absurd h.2 (by simp)
  | false =>
    rw [pushStep_open] at h
    split at h
    · rename_i hlt
      injection h with h
      rw [Prod.mk.injEq] at h
      obtain ⟨h1, -⟩ := h
      subst h1
      exact ⟨rfl, hlt, rfl⟩
    · exact absurd h (by simp)

lemma qstep_length_le {c : Nat} {a b : QueueState} {op : QOp}
    (hop : QStep c a op b) (ih : a.items.length ≤ c) : b.items.length ≤ c := by
  cases hop with
  | push p s2 bb h =>
    obtain ⟨items, closed⟩ := a
    cases closed with
    | true =>
      rw [pushStep_closed] at h
      injection h with h
      rw [Prod.mk.injEq] at h
      obtain ⟨h1, -⟩ := h
      rw [← h1]
      exact ih
    | false =>
      rw [pushStep_open] at h
      split at h
      · rename_i hlt
        injection h with h
        rw [Prod.mk.injEq] at h
        obtain ⟨h1, -⟩ := h
        rw [← h1]
        simp only [List.length_append, List.length_singleton]
        omega
      · exact absurd h (by simp)
  | pop s2 bb o h =>
    obtain ⟨items, closed⟩ := a
    cases items with
    | nil =>
      cases closed with
      | false => rw [popStep_nil_open] at h; exact absurd h (by simp)
      | true =>
        rw [popStep_nil_closed] at h
        injection h with h
        rw [Prod.mk.injEq] at h
        obtain ⟨h1, -⟩ := h
        rw [← h1]
        exact ih
    | cons x xs =>
      rw [popStep_cons] at h
      injection h with h
      rw [Prod.mk.injEq] at h
      obtain ⟨h1, -⟩ := h
      rw [← h1]
      simp only [List.length_cons] at ih ⊢
      omega
  | close =>
    simp only [closeStep]
    exact ih

/-- C5: the capacity invariant.  Every state reachable from a fresh queue of
capacity `c` has at most `c` items; a successful push leaves at most `c`
items; and the only steps enabled from a state where a producer is blocked
on a full open queue are a consumer pop or a close. -/
theorem c5_capacity_invariant :
    (∀ (c : Nat) (s : QueueState), QReachable c s → s.items.length ≤ c) ∧
    (∀ (c : Nat) (s : QueueState) (p : FramePacket) (s' : QueueState),
      pushStep c s p = some (s', true) → s'.items.length ≤ c) ∧
    (∀ (c : Nat) (s : QueueState) (op : QOp) (s' : QueueState),
      QStep c s op s' → pushBlocked c s → op = .pop ∨ op = .close) := by
  refine ⟨?_, ?_, ?_⟩
  · intro c s h
    induction h with
    | refl => simp [QInit]
    | tail _ hstep ih =>
      obtain ⟨op, hop⟩ := hstep
      exact qstep_length_le hop ih
  · intro c s p s' h
    obtain ⟨_, hlt, heq⟩ := pushStep_true_elim h
    rw [heq]
    simp only [List.length_append, List.length_singleton]
    omega
  · intro c s op s' hstep hblocked
    cases hstep with
    | push p s2 bb h =>
      obtain ⟨hc, hlen⟩ := hblocked
      obtain ⟨items, closed⟩ := s
      simp only at hc hlen
      subst hc
      rw [pushStep_open, if_neg (by omega)] at h
      exact absurd h (by simp)
    | pop s2 bb o h => exact Or.inl rfl
    | close => exact Or.inr rfl

/-- Witness for C5: the reachable state after one successful push on a
capacity-2 queue respects the capacity bound. -/
theorem c5_witness :
    pushStep 2 QInit endPacket = some (⟨[endPacket], false⟩, true) ∧
    (⟨[endPacket], false⟩ : QueueState).items.length ≤ 2 :=
  ⟨by rw [show QInit = ⟨[], false⟩ from rfl, pushStep_open]; simp,
    c5_capacity_invariant.2.1 2 QInit endPacket ⟨[endPacket], false⟩
      (by rw [show QInit = ⟨[], false⟩ from rfl, pushStep_open]; simp)⟩

/-! ## C10: the output-overwrite guard in `main` -/

/-- C10 (amended): on every invocation that reaches the generation path
(`--show` not passed), if the resolved output is not the stdout sentinel
`"-"`, the file at that path can be opened for reading, and `--overwrite`
was not passed, then `main` exits with status 1 before constructing the
`VideoGenerator` and before spawning any subprocess; passing `--overwrite`
or using output `"-"` bypasses the existence check. -/
theorem c10_overwrite_guard :
    (∀ (cfg : CliConfig) (f : String → Bool) (bI bV g : Bool),
      cfg.showConfig = false → cfg.output ≠ "-" → f cfg.output = true →
      cfg.overwriteOutput = false →
      exitCodeOf (mainResolved cfg f bI bV g).1 = 1 ∧
      (mainResolved cfg f bI bV g).2 = []) ∧
    (∀ (cfg : CliConfig) (f : String → Bool) (bI bV g : Bool),
      cfg.overwriteOutput = true ∨ cfg.output = "-" →
      (mainResolved cfg f bI bV g).1 ≠ .errOutputExists) := by
  constructor
  · intro cfg f bI bV g hshow hout hf hover
    rw [mainResolved]
    by_cases h1 : cfg.stages = []
    · rw [if_pos h1]
      exact ⟨rfl, rfl⟩
    · rw [if_neg h1, if_neg (by simp [hshow])]
      by_cases h2 : cfg.output = ""
      · rw [if_pos h2]
        exact ⟨rfl, rfl⟩
      · rw [if_neg h2, if_pos ⟨hover, hout, hf⟩]
        exact ⟨rfl, rfl⟩
  · intro cfg f bI bV g hbypass
    rw [mainResolved]
    by_cases h1 : cfg.stages = []
    · rw [if_pos h1]; simp
    · rw [if_neg h1]
      by_cases h2 : cfg.showConfig
      · rw [if_pos h2]
        split <;> simp
      · rw [if_neg h2]
        by_cases h3 : cfg.output = ""
        · rw [if_pos h3]; simp
        · rw [if_neg h3, if_neg ?_]
          · by_cases h4 : cfg.backgroundImage ≠ "" ∧ cfg.backgroundVideo ≠ ""
            · rw [if_pos h4]; simp
            · rw [if_neg h4]
              by_cases h5 : cfg.backgroundImage ≠ "" ∧ bI = false
              · rw [if_pos h5]; simp
              · rw [if_neg h5]
                by_cases h6 : cfg.backgroundVideo ≠ "" ∧ bV = false
                · rw [if_pos h6]; simp
                · rw [if_neg h6]
                  by_cases h7 : g = true
                  · rw [if_pos h7]; simp
                  · rw [if_neg h7]; simp
          · rcases hbypass with h | h
            · intro hcon
              rw [h] at hcon
              exact absurd hcon.1 (by simp)
            · intro hcon
              exact absurd h hcon.2.1

/-- Counterexample to C10 as stated: with `--show` passed, an existing
output file and no `--overwrite`, `main` prints the resolved configuration
and exits with status 0 (src/main.cpp:418-433 runs before the overwrite
check at 441-447), not with an error and status 1. -/
theorem c10_counterexample :
    (⟨[true], true, false, "out.mp4", "", ""⟩ : CliConfig).output ≠ "-" ∧
    (fun _ => true) (⟨[true], true, false, "out.mp4", "", ""⟩ : CliConfig).output
      = true ∧
    (⟨[true], true, false, "out.mp4", "", ""⟩ : CliConfig).overwriteOutput
      = false ∧
    exitCodeOf (mainResolved ⟨[true], true, false, "out.mp4", "", ""⟩
      (fun _ => true) true true true).1 = 0 := by
  refine ⟨by decide, rfl, rfl, ?_⟩
  rw [mainResolved]
  rw [if_neg (by simp), if_pos rfl]
  rfl

/-- Witness for the amended C10 at a concrete configuration without
`--show`. -/
theorem c10_witness :
    exitCodeOf (mainResolved ⟨[true], false, false, "out.mp4", "", ""⟩
      (fun _ => true) true true true).1 = 1 ∧
    (mainResolved ⟨[true], false, false, "out.mp4", "", ""⟩
      (fun _ => true) true true true).2 = [] :=
  c10_overwrite_guard.1 ⟨[true], false, false, "out.mp4", "", ""⟩
    (fun _ => true) true true true rfl (by decide) rfl rfl

/-! ## C8: initialization failure aborts before the encoder opens -/

/-- C8: whenever the effect-setup loop fails (some effect's `initialize`
returns false), `generate` returns false and its event trace contains
neither the opening of the encoder subprocess nor the spawning of any
worker thread — both happen strictly later in program order
(effect_generator.cpp:648-658 precedes 671 and 743). -/
theorem c8_init_failure_aborts {σ : Type} (cfg : GenCfg) (warmup : ℚ)
    (effects : List (EffectModel σ × σ)) (durationSec : Int) (probeSecs : ℚ)
    (outputOpens : Bool) (bg0 : Frame) (src : List Frame) (tf : Int)
    (hres : resolveTotalFrames cfg.isVideo durationSec cfg.fps probeSecs = some tf)
    (hinit : initEffects cfg warmup tf effects = none) :
    (generateRun cfg warmup effects durationSec probeSecs outputOpens bg0 src).1
      = false ∧
    GenEvent.openOutput ∉
      (generateRun cfg warmup effects durationSec probeSecs outputOpens bg0 src).2 ∧
    ∀ k, GenEvent.spawnWorker k ∉
      (generateRun cfg warmup effects durationSec probeSecs outputOpens bg0 src).2 := by
  match effects with
  | [] => simp [initEffects] at hinit
  | e :: es =>
    have hgen : generateRun cfg warmup (e :: es) durationSec probeSecs outputOpens
        bg0 src =
        (false, (GenEvent.msgFFmpegPath ::
          resolutionEvents cfg.isVideo durationSec cfg.fps probeSecs tf)
            ++ [.errEffectInit]) := by
      simp only [generateRun, hres, hinit]
    rw [hgen]
    refine ⟨rfl, ?_, ?_⟩
    · rw [resolutionEvents]
      split_ifs <;> simp
    · intro k
      rw [resolutionEvents]
      split_ifs <;> simp

/-- Witness effect whose `initialize` fails. -/
def failInitEffect : EffectModel Unit where
  renderFrame := fun s f _ _ => (s, f)
  postProcess := fun s f _ _ => (s, f, false)
  update := fun s => s
  initFn := fun s _ _ _ => (s, false)
  setTotalFrames := fun s _ => s
  setGlobalWarmupSeconds := fun s _ => s

/-- Witness for C8: a one-stage pipeline whose effect fails to initialize. -/
theorem c8_witness :
    (generateRun ⟨1, 1, 30, 0, 1, false, false⟩ 0 [(failInitEffect, ())] 5 0 true
      [] []).1 = false :=
  (c8_init_failure_aborts ⟨1, 1, 30, 0, 1, false, false⟩ 0 [(failInitEffect, ())]
    5 0 true [] [] (30 * 5) rfl rfl).1

/-! ## Stage-0 worker lemmas -/

lemma idxList_opt_append (d : Bool) (f : Frame) (i : Int) (l : List FramePacket) :
    idxList ((if d then [] else [⟨f, i, false⟩]) ++ l) =
      (if d then [] else [i]) ++ idxList l := by
  cases d <;> simp [idxList]

lemma effectStep_drop_false {σ : Type} {e : EffectModel σ} (hnd : NeverDrops e)
    (cfg : GenCfg) (auto : Bool) (tf : Int) (b : Bool) (s : σ) (f : Frame)
    (l : Int) : (effectStep cfg e auto tf b s f l).2.2 = false := by
  simp only [effectStep]
  exact hnd _ _ _ _

/-- Every continuing iteration of the stage-0 loop prepends one trace record
and (unless dropped) one output packet to a recursive run from `i + 1`;
otherwise the loop broke on source exhaustion in auto-detect mode. -/
lemma runStage0Loop_succ_shape {σ : Type} (cfg : GenCfg) (e : EffectModel σ)
    (auto : Bool) (tf : Int) (fuel : Nat) (i : Int) (s : σ) (bg : Frame)
    (src : List Frame) :
    (∃ (st : σ × Frame × Bool) (bg' : Frame) (src' : List Frame) (fr : Frame),
      st = effectStep cfg e auto tf cfg.hasBackground s fr i ∧
      runStage0Loop cfg e auto tf (fuel + 1) i s bg src =
        ⟨(if st.2.2 then [] else [⟨st.2.1, i, false⟩]) ++
            (runStage0Loop cfg e auto tf fuel (i + 1) st.1 bg' src').outs,
          ⟨i, fr, st.2.2⟩ :: (runStage0Loop cfg e auto tf fuel (i + 1) st.1 bg' src').trace,
          (runStage0Loop cfg e auto tf fuel (i + 1) st.1 bg' src').state,
          (runStage0Loop cfg e auto tf fuel (i + 1) st.1 bg' src').finalIndex,
          (runStage0Loop cfg e auto tf fuel (i + 1) st.1 bg' src').ended⟩) ∨
    runStage0Loop cfg e auto tf (fuel + 1) i s bg src = ⟨[], [], s, i, true⟩ := by
  by_cases h : ((cfg.isVideo && cfg.hasBackground) && src.isEmpty && auto) = true
  · right
    rw [runStage0Loop, if_pos h]
  · left
    refine ⟨effectStep cfg e auto tf cfg.hasBackground s
        (if cfg.hasBackground then
          (if cfg.isVideo && cfg.hasBackground then src.headD bg else bg)
          else zeroFrame cfg) i,
      (if cfg.isVideo && cfg.hasBackground then src.headD bg else bg),
      (if cfg.isVideo && cfg.hasBackground then src.tail else src),
      (if cfg.hasBackground then
        (if cfg.isVideo && cfg.hasBackground then src.headD bg else bg)
        else zeroFrame cfg), rfl, ?_⟩
    rw [runStage0Loop, if_neg h]

lemma stage0_trace_consecutive {σ : Type} (cfg : GenCfg) (e : EffectModel σ)
    (auto : Bool) (tf : Int) :
    ∀ (fuel : Nat) (i : Int) (s : σ) (bg : Frame) (src : List Frame),
    ∃ n, traceIdx (runStage0Loop cfg e auto tf fuel i s bg src).trace
      = intRange i n := by
  intro fuel
  induction fuel with
  | zero => intro i s bg src; exact ⟨0, rfl⟩
  | succ fuel ih =>
    intro i s bg src
    rcases runStage0Loop_succ_shape cfg e auto tf fuel i s bg src with
      ⟨st, bg', src', fr, hst, heq⟩ | heq
    · rw [heq]
      obtain ⟨n, hn⟩ := ih (i + 1) st.1 bg' src'
      refine ⟨n + 1, ?_⟩
      simp only [traceIdx, List.map_cons] at hn ⊢
      rw [hn, intRange_succ_cons]
    · rw [heq]
      exact ⟨0, rfl⟩

lemma stage0_outs_sublist_trace {σ : Type} (cfg : GenCfg) (e : EffectModel σ)
    (auto : Bool) (tf : Int) :
    ∀ (fuel : Nat) (i : Int) (s : σ) (bg : Frame) (src : List Frame),
    List.Sublist (idxList (runStage0Loop cfg e auto tf fuel i s bg src).outs)
      (traceIdx (runStage0Loop cfg e auto tf fuel i s bg src).trace) := by
  intro fuel
  induction fuel with
  | zero => intro i s bg src; exact List.Sublist.refl _
  | succ fuel ih =>
    intro i s bg src
    rcases runStage0Loop_succ_shape cfg e auto tf fuel i s bg src with
      ⟨st, bg', src', fr, hst, heq⟩ | heq
    · rw [heq]
      simp only [idxList_opt_append, traceIdx, List.map_cons]
      by_cases hd : st.2.2 = true
    
      · simp only [hd, if_true, List.nil_append]
        exact (ih (i + 1) st.1 bg' src').cons _
      · simp only [hd, if_false, List.cons_append, List.nil_append]
        exact (ih (i + 1) st.1 bg' src').cons₂ _
    · rw [heq]
      exact List.Sublist.refl _

lemma stage0_outs_nonEnd {σ : Type} (cfg : GenCfg) (e : EffectModel σ)
    (auto : Bool) (tf : Int) :
    ∀ (fuel : Nat) (i : Int) (s : σ) (bg : Frame) (src : List Frame),
    nonEnd (runStage0Loop cfg e auto tf fuel i s bg src).outs := by
  intro fuel
  induction fuel with
  | zero => intro i s bg src p hp; exact absurd hp (by simp [runStage0Loop])
  | succ fuel ih =>
    intro i s bg src
    rcases runStage0Loop_succ_shape cfg e auto tf fuel i s bg src with
      ⟨st, bg', src', fr, hst, heq⟩ | heq
    · rw [heq]
      intro p hp
      simp only [List.mem_append] at hp
      rcases hp with hp | hp
      · by_cases hd : st.2.2 = true
        · simp [hd] at hp
        · simp [hd] at hp
          rw [hp]
      · exact ih (i + 1) st.1 bg' src' p hp
    · rw [heq]
      intro p hp
      exact absurd hp (by simp)

lemma stage0_trace_length_le {σ : Type} (cfg : GenCfg) (e : EffectModel σ)
    (auto : Bool) (tf : Int) :
    ∀ (fuel : Nat) (i : Int) (s : σ) (bg : Frame) (src : List Frame),
    (runStage0Loop cfg e auto tf fuel i s bg src).trace.length ≤ fuel := by
  intro fuel
  induction fuel with
  | zero => intro i s bg src; simp [runStage0Loop]
  | succ fuel ih =>
    intro i s bg src
    rcases runStage0Loop_succ_shape cfg e auto tf fuel i s bg src with
      ⟨st, bg', src', fr, hst, heq⟩ | heq
    · rw [heq]
      simp only [List.length_cons]
      exact Nat.succ_le_succ (ih (i + 1) st.1 bg' src')
    · rw [heq]
      simp

lemma if_bool_false {α : Type} (a b : α) : (if false = true then a else b) = b := rfl

lemma if_bool_true {α : Type} (a b : α) : (if true = true then a else b) = a := rfl

lemma idxList_cons_pkt (f : Frame) (i : Int) (b : Bool) (l : List FramePacket) :
    idxList (⟨f, i, b⟩ :: l) = i :: idxList l := rfl

lemma idxList_cons (p : FramePacket) (l : List FramePacket) :
    idxList (p :: l) = p.frameIndex :: idxList l := rfl

lemma traceIdx_cons_rec (j : Int) (f : Frame) (d : Bool) (l : List StageRec) :
    traceIdx (⟨j, f, d⟩ :: l) = j :: traceIdx l := rfl

lemma stage0_noDrop_outs {σ : Type} (cfg : GenCfg) (e : EffectModel σ)
    (auto : Bool) (tf : Int) (hnd : NeverDrops e) :
    ∀ (fuel : Nat) (i : Int) (s : σ) (bg : Frame) (src : List Frame),
    idxList (runStage0Loop cfg e auto tf fuel i s bg src).outs =
      traceIdx (runStage0Loop cfg e auto tf fuel i s bg src).trace := by
  intro fuel
  induction fuel with
  | zero => intro i s bg src; rfl
  | succ fuel ih =>
    intro i s bg src
    rcases runStage0Loop_succ_shape cfg e auto tf fuel i s bg src with
      ⟨st, bg', src', fr, hst, heq⟩ | heq
    · rw [heq]
      have hd : st.2.2 = false := by
        rw [hst]; exact effectStep_drop_false hnd cfg auto tf cfg.hasBackground s fr i
      rw [hd, if_bool_false, List.singleton_append, traceIdx_cons_rec,
        idxList_cons_pkt, ih (i + 1) st.1 bg' src']
    · rw [heq]
      rfl

lemma stage0_trace_lower {σ : Type} (cfg : GenCfg) (e : EffectModel σ)
    (auto : Bool) (tf : Int) (fuel : Nat) (i : Int) (s : σ) (bg : Frame)
    (src : List Frame) {x : Int}
    (hx : x ∈ traceIdx (runStage0Loop cfg e auto tf fuel i s bg src).trace) :
    i ≤ x := by
  obtain ⟨n, hn⟩ := stage0_trace_consecutive cfg e auto tf fuel i s bg src
  rw [hn] at hx
  exact intRange_mem_lower hx

lemma stage0_outs_lower {σ : Type} (cfg : GenCfg) (e : EffectModel σ)
    (auto : Bool) (tf : Int) (fuel : Nat) (i : Int) (s : σ) (bg : Frame)
    (src : List Frame) {x : Int}
    (hx : x ∈ idxList (runStage0Loop cfg e auto tf fuel i s bg src).outs) :
    i ≤ x :=
  stage0_trace_lower cfg e auto tf fuel i s bg src
    ((stage0_outs_sublist_trace cfg e auto tf fuel i s bg src).subset hx)

lemma stage0_dropped_not_out {σ : Type} (cfg : GenCfg) (e : EffectModel σ)
    (auto : Bool) (tf : Int) :
    ∀ (fuel : Nat) (i : Int) (s : σ) (bg : Frame) (src : List Frame)
      (j : Int) (f : Frame),
    (⟨j, f, true⟩ : StageRec) ∈ (runStage0Loop cfg e auto tf fuel i s bg src).trace →
    j ∉ idxList (runStage0Loop cfg e auto tf fuel i s bg src).outs := by
  intro fuel
  induction fuel with
  | zero => intro i s bg src j f hj; exact absurd hj (by simp [runStage0Loop])
  | succ fuel ih =>
    intro i s bg src j f hj hout
    rcases runStage0Loop_succ_shape cfg e auto tf fuel i s bg src with
      ⟨st, bg', src', fr, hst, heq⟩ | heq
    · rw [heq] at hj hout
      simp only [List.mem_cons] at hj
      rw [idxList_opt_append, List.mem_append] at hout
      rcases hj with hj | hj
      · rw [StageRec.mk.injEq] at hj
        obtain ⟨hj1, -, hj3⟩ := hj
        rcases hout with hout | hout
        · rw [← hj3, if_bool_true] at hout
          exact absurd hout (by simp)
        · have := stage0_outs_lower cfg e auto tf fuel (i + 1) st.1 bg' src' hout
          omega
      · have hjtr : j ∈ traceIdx (runStage0Loop cfg e auto tf fuel (i + 1)
            st.1 bg' src').trace := List.mem_map.2 ⟨_, hj, rfl⟩
        have hlow := stage0_trace_lower cfg e auto tf fuel (i + 1) st.1 bg' src' hjtr
        rcases hout with hout | hout
        · by_cases hd : st.2.2 = true
          · rw [hd, if_bool_true] at hout
            exact absurd hout (by simp)
          · rw [Bool.not_eq_true] at hd
            rw [hd, if_bool_false, List.mem_singleton] at hout
            omega
        · exact ih (i + 1) st.1 bg' src' j f hj hout
    · rw [heq] at hj
      exact absurd hj (by simp)

lemma stage0_bounded_run {σ : Type} (cfg : GenCfg) (e : EffectModel σ)
    (tf : Int) :
    ∀ (fuel : Nat) (i : Int) (s : σ) (bg : Frame) (src : List Frame),
    (runStage0Loop cfg e false tf fuel i s bg src).trace.length = fuel ∧
    (runStage0Loop cfg e false tf fuel i s bg src).finalIndex = i + fuel ∧
    (runStage0Loop cfg e false tf fuel i s bg src).ended = false := by
  intro fuel
  induction fuel with
  | zero =>
    intro i s bg src
    exact ⟨rfl, by simp [runStage0Loop], rfl⟩
  | succ fuel ih =>
    intro i s bg src
    rw [runStage0Loop, if_neg (by simp)]
    dsimp only
    refine ⟨?_, ?_, ?_⟩
    · simp only [List.length_cons]
      rw [(ih (i + 1) _ _ _).1]
    · rw [(ih (i + 1) _ _ _).2.1]
      push_cast
      ring
    · exact (ih (i + 1) _ _ _).2.2

lemma stage0_auto_exhaust {σ : Type} (cfg : GenCfg) (e : EffectModel σ)
    (tf : Int) (hv : cfg.isVideo = true) (hb : cfg.hasBackground = true) :
    ∀ (src : List Frame) (fuel : Nat) (i : Int) (s : σ) (bg : Frame),
    src.length < fuel →
    (runStage0Loop cfg e true tf fuel i s bg src).trace.length = src.length ∧
    (runStage0Loop cfg e true tf fuel i s bg src).ended = true ∧
    (runStage0Loop cfg e true tf fuel i s bg src).finalIndex = i + src.length := by
  intro src
  induction src with
  | nil =>
    intro fuel i s bg hlen
    cases fuel with
    | zero => simp at hlen
    | succ fuel =>
      rw [runStage0Loop, if_pos (by simp [hv, hb])]
      exact ⟨rfl, rfl, by simp⟩
  | cons f rest ih =>
    intro fuel i s bg hlen
    cases fuel with
    | zero => simp at hlen
    | succ fuel =>
      rw [runStage0Loop, if_neg (by simp)]
      dsimp only
      simp only [hv, hb, Bool.and_self, if_bool_true, if_true, ite_true,
        List.headD_cons, List.tail_cons]
      have hlen' : rest.length < fuel := by
        simp only [List.length_cons] at hlen
        omega
      refine ⟨?_, ?_, ?_⟩
      · simp only [List.length_cons]
        rw [(ih fuel (i + 1) _ _ hlen').1]
      · exact (ih fuel (i + 1) _ _ hlen').2.1
      · rw [(ih fuel (i + 1) _ _ hlen').2.2]
        simp only [List.length_cons]
        push_cast
        ring

lemma stage0_nil_src_frames {σ : Type} (cfg : GenCfg) (e : EffectModel σ)
    (tf : Int) (hv : cfg.isVideo = true) (hb : cfg.hasBackground = true) :
    ∀ (fuel : Nat) (i : Int) (s : σ) (bg : Frame),
    (runStage0Loop cfg e false tf fuel i s bg []).trace.map (·.fr) =
      List.replicate fuel bg := by
  intro fuel
  induction fuel with
  | zero => intro i s bg; rfl
  | succ fuel ih =>
    intro i s bg
    rw [runStage0Loop, if_neg (by simp)]
    dsimp only
    simp only [hv, hb, Bool.and_self, if_bool_true, if_true, ite_true,
      List.headD_nil, List.tail_nil, List.map_cons]
    rw [ih (i + 1) _ _]
    rfl

/-- In a bounded run (the loop never breaks), the frames handed to the
effect are the source frames while they last, then the last successfully
read frame (the unchanged `backgroundBuffer_`) for every remaining
iteration. -/
lemma stage0_bounded_holds_last {σ : Type} (cfg : GenCfg) (e : EffectModel σ)
    (tf : Int) (hv : cfg.isVideo = true) (hb : cfg.hasBackground = true) :
    ∀ (src : List Frame) (fuel : Nat) (i : Int) (s : σ) (bg : Frame),
    (runStage0Loop cfg e false tf fuel i s bg src).trace.map (·.fr) =
      (src ++ List.replicate (fuel - src.length) (src.getLastD bg)).take fuel := by
  intro src
  induction src with
  | nil =>
    intro fuel i s bg
    rw [stage0_nil_src_frames cfg e tf hv hb fuel i s bg]
    simp
  | cons f rest ih =>
    intro fuel i s bg
    cases fuel with
    | zero => rfl
    | succ fuel =>
      rw [runStage0Loop, if_neg (by simp)]
      dsimp only
      simp only [hv, hb, Bool.and_self, if_bool_true, if_true, ite_true,
        List.headD_cons, List.tail_cons, List.map_cons]
      rw [ih fuel (i + 1) _ f]
      simp only [List.length_cons, List.cons_append, List.take_succ_cons,
        Nat.succ_sub_succ, List.getLastD_cons]

/-! ## Stage-`k` worker lemmas -/

lemma runStageKLoop_zero {σ : Type} (cfg : GenCfg) (e : EffectModel σ)
    (auto : Bool) (tf : Int) (s : σ) (inputs : List FramePacket) :
    runStageKLoop cfg e auto tf 0 s inputs = ⟨[], [], s⟩ := rfl

lemma runStageKLoop_nil {σ : Type} (cfg : GenCfg) (e : EffectModel σ)
    (auto : Bool) (tf : Int) (fuel : Nat) (s : σ) :
    runStageKLoop cfg e auto tf (fuel + 1) s [] = ⟨[], [], s⟩ := rfl

lemma runStageKLoop_end {σ : Type} (cfg : GenCfg) (e : EffectModel σ)
    (auto : Bool) (tf : Int) (fuel : Nat) (s : σ) (pkt : FramePacket)
    (rest : List FramePacket) (hend : pkt.isEnd = true) :
    runStageKLoop cfg e auto tf (fuel + 1) s (pkt :: rest) = ⟨[], [], s⟩ := by
  rw [runStageKLoop, if_pos hend]

lemma runStageKLoop_cons {σ : Type} (cfg : GenCfg) (e : EffectModel σ)
    (auto : Bool) (tf : Int) (fuel : Nat) (s : σ) (pkt : FramePacket)
    (rest : List FramePacket) (hend : pkt.isEnd = false) :
    runStageKLoop cfg e auto tf (fuel + 1) s (pkt :: rest) =
      ⟨(if (effectStep cfg e auto tf true s pkt.frame pkt.frameIndex).2.2 then []
          else [⟨(effectStep cfg e auto tf true s pkt.frame pkt.frameIndex).2.1,
            pkt.frameIndex, false⟩]) ++
          (runStageKLoop cfg e auto tf fuel
            (effectStep cfg e auto tf true s pkt.frame pkt.frameIndex).1 rest).outs,
        ⟨pkt.frameIndex, pkt.frame,
          (effectStep cfg e auto tf true s pkt.frame pkt.frameIndex).2.2⟩ ::
          (runStageKLoop cfg e auto tf fuel
            (effectStep cfg e auto tf true s pkt.frame pkt.frameIndex).1 rest).trace,
        (runStageKLoop cfg e auto tf fuel
          (effectStep cfg e auto tf true s pkt.frame pkt.frameIndex).1 rest).state⟩ := by
  rw [runStageKLoop, if_neg (by simp [hend])]

lemma stageK_outs_sublist_trace {σ : Type} (cfg : GenCfg) (e : EffectModel σ)
    (auto : Bool) (tf : Int) :
    ∀ (fuel : Nat) (s : σ) (inputs : List FramePacket),
    List.Sublist (idxList (runStageKLoop cfg e auto tf fuel s inputs).outs)
      (traceIdx (runStageKLoop cfg e auto tf fuel s inputs).trace) := by
  intro fuel
  induction fuel with
  | zero => intro s inputs; exact List.Sublist.refl _
  | succ fuel ih =>
    intro s inputs
    match inputs with
    | [] => exact List.Sublist.refl _
    | pkt :: rest =>
      by_cases hend : pkt.isEnd = true
      · rw [runStageKLoop_end cfg e auto tf fuel s pkt rest hend]
        exact List.Sublist.refl _
      · rw [Bool.not_eq_true] at hend
        rw [runStageKLoop_cons cfg e auto tf fuel s pkt rest hend]
        dsimp only
        rw [idxList_opt_append, traceIdx_cons_rec]
        by_cases hd : (effectStep cfg e auto tf true s pkt.frame pkt.frameIndex).2.2
          = true
        · rw [hd, if_bool_true, List.nil_append]
          exact (ih _ rest).cons _
        · rw [Bool.not_eq_true] at hd
          rw [hd, if_bool_false, List.singleton_append]
          exact (ih _ rest).cons₂ _

lemma stageK_outs_nonEnd {σ : Type} (cfg : GenCfg) (e : EffectModel σ)
    (auto : Bool) (tf : Int) :
    ∀ (fuel : Nat) (s : σ) (inputs : List FramePacket),
    nonEnd (runStageKLoop cfg e auto tf fuel s inputs).outs := by
  intro fuel
  induction fuel with
  | zero => intro s inputs p hp; exact absurd hp (by simp [runStageKLoop_zero])
  | succ fuel ih =>
    intro s inputs
    match inputs with
    | [] => intro p hp; exact absurd hp (by simp [runStageKLoop_nil])
    | pkt :: rest =>
      by_cases hend : pkt.isEnd = true
      · rw [runStageKLoop_end cfg e auto tf fuel s pkt rest hend]
        intro p hp
        exact absurd hp (by simp)
      · rw [Bool.not_eq_true] at hend
        rw [runStageKLoop_cons cfg e auto tf fuel s pkt rest hend]
        dsimp only
        intro p hp
        rw [List.mem_append] at hp
        rcases hp with hp | hp
        · by_cases hd : (effectStep cfg e auto tf true s pkt.frame
              pkt.frameIndex).2.2 = true
          · rw [hd, if_bool_true] at hp
            exact absurd hp (by simp)
          · rw [Bool.not_eq_true] at hd
            rw [hd, if_bool_false, List.mem_singleton] at hp
            rw [hp]
        · exact ih _ rest p hp

lemma stageK_trace_sublist_pre {σ : Type} (cfg : GenCfg) (e : EffectModel σ)
    (auto : Bool) (tf : Int) :
    ∀ (pre : List FramePacket) (fuel : Nat) (s : σ), nonEnd pre →
    List.Sublist
      (traceIdx (runStageKLoop cfg e auto tf fuel s (pre ++ [endPacket])).trace)
      (idxList pre) := by
  intro pre
  induction pre with
  | nil =>
    intro fuel s _
    match fuel with
    | 0 => exact List.nil_sublist _
    | fuel + 1 =>
      rw [List.nil_append, runStageKLoop_end cfg e auto tf fuel s endPacket [] rfl]
      exact List.nil_sublist _
  | cons pkt rest ih =>
    intro fuel s hne
    match fuel with
    | 0 => exact List.nil_sublist _
    | fuel + 1 =>
      have hend : pkt.isEnd = false := hne pkt (by simp)
      rw [List.cons_append, runStageKLoop_cons cfg e auto tf fuel s pkt _ hend]
      dsimp only
      rw [traceIdx_cons_rec, idxList_cons]
      exact (ih fuel _ (fun p hp => hne p (by simp [hp]))).cons₂ _

lemma stageK_noDrop_outs {σ : Type} (cfg : GenCfg) (e : EffectModel σ)
    (auto : Bool) (tf : Int) (hnd : NeverDrops e) :
    ∀ (pre : List FramePacket) (fuel : Nat) (s : σ), nonEnd pre →
    pre.length ≤ fuel →
    idxList (runStageKLoop cfg e auto tf fuel s (pre ++ [endPacket])).outs =
      idxList pre := by
  intro pre
  induction pre with
  | nil =>
    intro fuel s _ _
    match fuel with
    | 0 => rfl
    | fuel + 1 =>
      rw [List.nil_append, runStageKLoop_end cfg e auto tf fuel s endPacket [] rfl]
  | cons pkt rest ih =>
    intro fuel s hne hlen
    match fuel with
    | 0 => simp at hlen
    | fuel + 1 =>
      have hend : pkt.isEnd = false := hne pkt (by simp)
      rw [List.cons_append, runStageKLoop_cons cfg e auto tf fuel s pkt _ hend]
      dsimp only
      rw [effectStep_drop_false hnd, if_bool_false, List.singleton_append,
        idxList_cons_pkt, idxList_cons,
        ih fuel _ (fun p hp => hne p (by simp [hp])) (by simp at hlen; omega)]

lemma stageK_dropped_not_out {σ : Type} (cfg : GenCfg) (e : EffectModel σ)
    (auto : Bool) (tf : Int) :
    ∀ (fuel : Nat) (s : σ) (inputs : List FramePacket) (j : Int) (f : Frame),
    (traceIdx (runStageKLoop cfg e auto tf fuel s inputs).trace).Nodup →
    (⟨j, f, true⟩ : StageRec) ∈ (runStageKLoop cfg e auto tf fuel s inputs).trace →
    j ∉ idxList (runStageKLoop cfg e auto tf fuel s inputs).outs := by
  intro fuel
  induction fuel with
  | zero => intro s inputs j f _ hj; exact absurd hj (by simp [runStageKLoop_zero])
  | succ fuel ih =>
    intro s inputs j f hnodup hj
    match inputs with
    | [] => exact absurd hj (by simp [runStageKLoop_nil])
    | pkt :: rest =>
      by_cases hend : pkt.isEnd = true
      · rw [runStageKLoop_end cfg e auto tf fuel s pkt rest hend] at hj
        exact absurd hj (by simp)
      · rw [Bool.not_eq_true] at hend
        rw [runStageKLoop_cons cfg e auto tf fuel s pkt rest hend] at hnodup hj ⊢
        dsimp only at hnodup hj ⊢
        rw [traceIdx_cons_rec, List.nodup_cons] at hnodup
        obtain ⟨hnotin, hnodup'⟩ := hnodup
        intro hout
        rw [idxList_opt_append, List.mem_append] at hout
        simp only [List.mem_cons] at hj
        rcases hj with hj | hj
        · rw [StageRec.mk.injEq] at hj
          obtain ⟨hj1, -, hj3⟩ := hj
          rcases hout with hout | hout
          · rw [← hj3, if_bool_true] at hout
            exact absurd hout (by simp)
          · have : j ∈ traceIdx (runStageKLoop cfg e auto tf fuel
                (effectStep cfg e auto tf true s pkt.frame pkt.frameIndex).1
                rest).trace :=
              (stageK_outs_sublist_trace cfg e auto tf fuel _ rest).subset hout
            rw [hj1] at this
            exact hnotin this
        · have hjtr : j ∈ traceIdx (runStageKLoop cfg e auto tf fuel
              (effectStep cfg e auto tf true s pkt.frame pkt.frameIndex).1
              rest).trace := List.mem_map.2 ⟨_, hj, rfl⟩
          rcases hout with hout | hout
          · by_cases hd : (effectStep cfg e auto tf true s pkt.frame
                pkt.frameIndex).2.2 = true
            · rw [hd, if_bool_true] at hout
              exact absurd hout (by simp)
            · rw [Bool.not_eq_true] at hd
              rw [hd, if_bool_false, List.mem_singleton] at hout
              rw [hout] at hjtr
              exact hnotin hjtr
          · exact ih _ rest j f hnodup' hj hout

/-! ## Composition over the later stages and the collector -/

lemma runStagesAll_spec {σ : Type} (cfg : GenCfg) (auto : Bool) (tf : Int) :
    ∀ (stages : List (EffectModel σ × σ)) (pre : List FramePacket),
    nonEnd pre → (idxList pre).Nodup →
    ∃ fin : List FramePacket,
      (runStagesAll cfg auto tf stages (pre ++ [endPacket])).2.2 =
        fin ++ [endPacket] ∧
      nonEnd fin ∧
      List.Sublist (idxList fin) (idxList pre) ∧
      (∀ pr ∈ List.zip (runStagesAll cfg auto tf stages (pre ++ [endPacket])).2.1
          (runStagesAll cfg auto tf stages (pre ++ [endPacket])).1,
        ∀ (j : Int) (f : Frame), (⟨j, f, true⟩ : StageRec) ∈ pr.1 →
          j ∉ idxList pr.2 ∧ j ∉ idxList fin) := by
  intro stages
  induction stages with
  | nil =>
    intro pre hne hnodup
    refine ⟨pre, rfl, hne, List.Sublist.refl _, ?_⟩
    intro pr hpr
    exact absurd hpr (by simp [runStagesAll])
  | cons es rest ih =>
    intro pre hne hnodup
    obtain ⟨e, s⟩ := es
    have houts_nonEnd := stageK_outs_nonEnd cfg e auto tf tf.toNat s
      (pre ++ [endPacket])
    have htr_sub := stageK_trace_sublist_pre cfg e auto tf pre tf.toNat s hne
    have houts_sub := (stageK_outs_sublist_trace cfg e auto tf tf.toNat s
      (pre ++ [endPacket])).trans htr_sub
    have hnodup_tr : (traceIdx (runStageKLoop cfg e auto tf tf.toNat s
        (pre ++ [endPacket])).trace).Nodup := hnodup.sublist htr_sub
    have hnodup_outs : (idxList (runStageKLoop cfg e auto tf tf.toNat s
        (pre ++ [endPacket])).outs).Nodup := hnodup.sublist houts_sub
    obtain ⟨fin, hfin, hfin_ne, hfin_sub, hfin_zip⟩ :=
      ih (runStageKLoop cfg e auto tf tf.toNat s (pre ++ [endPacket])).outs
        houts_nonEnd hnodup_outs
    refine ⟨fin, ?_, hfin_ne, hfin_sub.trans houts_sub, ?_⟩
    · rw [runStagesAll]
      exact hfin
    · rw [runStagesAll]
      dsimp only
      intro pr hpr
      rw [List.zip_cons_cons, List.mem_cons] at hpr
      rcases hpr with hpr | hpr
      · subst hpr
        intro j f hj
        have hnot := stageK_dropped_not_out cfg e auto tf tf.toNat s
          (pre ++ [endPacket]) j f hnodup_tr hj
        refine ⟨hnot, fun hmem => hnot (hfin_sub.subset hmem)⟩
      · intro j f hj
        exact hfin_zip pr hpr j f hj

lemma collectorLoop_append_end (cfg : GenCfg) (auto : Bool) (tf : Int) :
    ∀ (fin : List FramePacket), nonEnd fin →
    idxList (collectorLoop cfg auto tf (fin ++ [endPacket])) = idxList fin := by
  intro fin
  induction fin with
  | nil => intro _; rfl
  | cons pkt rest ih =>
    intro hne
    have hend : pkt.isEnd = false := hne pkt (by simp)
    rw [List.cons_append, collectorLoop, if_neg (by simp [hend])]
    rw [idxList_cons, idxList_cons, ih (fun p hp => hne p (by simp [hp]))]

lemma runStagesAll_noDrop {σ : Type} (cfg : GenCfg) (auto : Bool) (tf : Int) :
    ∀ (stages : List (EffectModel σ × σ)) (pre : List FramePacket),
    (∀ es ∈ stages, NeverDrops es.1) → nonEnd pre → pre.length ≤ tf.toNat →
    ∃ fin : List FramePacket,
      (runStagesAll cfg auto tf stages (pre ++ [endPacket])).2.2 =
        fin ++ [endPacket] ∧
      nonEnd fin ∧ idxList fin = idxList pre := by
  intro stages
  induction stages with
  | nil =>
    intro pre _ hne _
    exact ⟨pre, rfl, hne, rfl⟩
  | cons es rest ih =>
    intro pre hnd hne hlen
    obtain ⟨e, s⟩ := es
    have hnd0 : NeverDrops e := hnd (e, s) (by simp)
    have houts := stageK_noDrop_outs cfg e auto tf hnd0 pre tf.toNat s hne hlen
    have houts_nonEnd := stageK_outs_nonEnd cfg e auto tf tf.toNat s
      (pre ++ [endPacket])
    have hlen_outs : (runStageKLoop cfg e auto tf tf.toNat s
        (pre ++ [endPacket])).outs.length = pre.length := by
      have := congrArg List.length houts
      simpa [idxList] using this
    obtain ⟨fin, hfin, hfin_ne, hfin_idx⟩ :=
      ih (runStageKLoop cfg e auto tf tf.toNat s (pre ++ [endPacket])).outs
        (fun es hes => hnd es (by simp [hes])) houts_nonEnd (by omega)
    refine ⟨fin, ?_, hfin_ne, by rw [hfin_idx, houts]⟩
    rw [runStagesAll]
    exact hfin

lemma intRange_zero_eq (n : Nat) :
    intRange 0 n = (List.range n).map (fun k : Nat => (k : Int)) := by
  simp [intRange]

/-- C1 (amended): the frame indices the collector writes are strictly
increasing for every configuration, effect list and source; and when no
stage ever sets the drop flag they are exactly the consecutive indices
`0, 1, 2, ...` with no gaps.  (A dropped frame is never forwarded, so a
stage that drops produces a gap — see the counterexample.) -/
theorem c1_index_monotone {σ : Type} (cfg : GenCfg) (auto : Bool) (tf : Int)
    (effects : List (EffectModel σ × σ)) (bg0 : Frame) (src : List Frame) :
    (idxList (runPipelineFull cfg auto tf effects bg0 src).collected).Pairwise
      (· < ·) ∧
    ((∀ es ∈ effects, NeverDrops es.1) →
      idxList (runPipelineFull cfg auto tf effects bg0 src).collected =
        (List.range
          (runPipelineFull cfg auto tf effects bg0 src).collected.length).map
          (fun k : Nat => (k : Int))) := by
  match effects with
  | [] => exact ⟨List.Pairwise.nil, fun _ => rfl⟩
  | (e0, s0) :: rest =>
    rw [runPipelineFull]
    dsimp only
    have hne0 := stage0_outs_nonEnd cfg e0 auto tf tf.toNat 0 s0 bg0 src
    obtain ⟨n, hcons⟩ := stage0_trace_consecutive cfg e0 auto tf tf.toNat 0 s0 bg0 src
    have hsub0 := stage0_outs_sublist_trace cfg e0 auto tf tf.toNat 0 s0 bg0 src
    rw [hcons] at hsub0
    have hpw0 : (idxList (runStage0Loop cfg e0 auto tf tf.toNat 0 s0 bg0
        src).outs).Pairwise (· < ·) :=
      (intRange_pairwise_lt 0 n).sublist hsub0
    have hnodup0 : (idxList (runStage0Loop cfg e0 auto tf tf.toNat 0 s0 bg0
        src).outs).Nodup :=
      hpw0.imp (fun h => ne_of_lt h)
    obtain ⟨fin, hfin, hfin_ne, hfin_sub, -⟩ :=
      runStagesAll_spec cfg auto tf rest _ hne0 hnodup0
    constructor
    · rw [hfin, collectorLoop_append_end cfg auto tf fin hfin_ne]
      exact hpw0.sublist hfin_sub
    · intro hnd
      have hnd0 : NeverDrops e0 := hnd (e0, s0) (by simp)
      have heq0 := stage0_noDrop_outs cfg e0 auto tf hnd0 tf.toNat 0 s0 bg0 src
      have hlen_tr := stage0_trace_length_le cfg e0 auto tf tf.toNat 0 s0 bg0 src
      have hn_eq : n = (runStage0Loop cfg e0 auto tf tf.toNat 0 s0 bg0
          src).trace.length := by
        have := congrArg List.length hcons
        simpa [traceIdx, intRange] using this.symm
      have hlen0 : (runStage0Loop cfg e0 auto tf tf.toNat 0 s0 bg0
          src).outs.length ≤ tf.toNat := by
        have h1 := congrArg List.length heq0
        simp only [idxList, traceIdx, List.length_map] at h1
        omega
      obtain ⟨fin', hfin', hfin_ne', hfin_idx'⟩ :=
        runStagesAll_noDrop cfg auto tf rest _ (fun es hes => hnd es (by simp [hes]))
          hne0 hlen0
      rw [hfin', collectorLoop_append_end cfg auto tf fin' hfin_ne', hfin_idx',
        heq0, hcons]
      have hlenc : (collectorLoop cfg auto tf (fin' ++ [endPacket])).length = n := by
        have h3 := congrArg List.length
          (collectorLoop_append_end cfg auto tf fin' hfin_ne')
        rw [hfin_idx', heq0, hcons] at h3
        simpa [idxList, intRange] using h3
      rw [hlenc, intRange_zero_eq]

/-- A do-nothing effect: renders nothing, never drops. -/
def idEffect : EffectModel Unit where
  renderFrame := fun s f _ _ => (s, f)
  postProcess := fun s f _ _ => (s, f, false)
  update := fun s => s
  initFn := fun s _ _ _ => (s, true)
  setTotalFrames := fun s _ => s
  setGlobalWarmupSeconds := fun s _ => s

/-- An effect that drops exactly the frame with logical index 1. -/
def dropIdx1Effect : EffectModel Unit where
  renderFrame := fun s f _ _ => (s, f)
  postProcess := fun s f l _ => (s, f, l == 1)
  update := fun s => s
  initFn := fun s _ _ _ => (s, true)
  setTotalFrames := fun s _ => s
  setGlobalWarmupSeconds := fun s _ => s

/-- A tiny 1x1 configuration with no background. -/
def cfgNoBg : GenCfg := ⟨1, 1, 1, 0, 1, false, false⟩

/-- Counterexample to C1 as stated: a single-stage bounded run of 3 frames
whose effect drops frame 1.  The collector writes indices `[0, 2]` — still
strictly increasing, but with a gap, so the collected sequence is not
`0, 1, 2, ...` consecutively. -/
theorem c1_counterexample :
    idxList (runPipelineFull cfgNoBg false 3 [(dropIdx1Effect, ())] [] []).collected
      = [0, 2] ∧
    ¬(idxList (runPipelineFull cfgNoBg false 3 [(dropIdx1Effect, ())] [] []).collected
      = (List.range
          (runPipelineFull cfgNoBg false 3 [(dropIdx1Effect, ())] [] []).collected.length).map
          (fun k : Nat => (k : Int))) := by
  constructor
  · rfl
  · intro h
    have : ([0, 2] : List Int) = [0, 1] := by
      calc ([0, 2] : List Int)
          = idxList (runPipelineFull cfgNoBg false 3 [(dropIdx1Effect, ())] []
              []).collected := by rfl
        _ = _ := h
        _ = [0, 1] := by rfl
    simp at this

/-- Witness for the amended C1: a no-drop two-frame run really collects the
consecutive indices. -/
theorem c1_witness :
    idxList (runPipelineFull cfgNoBg false 2 [(idEffect, ())] [] []).collected =
      (List.range
        (runPipelineFull cfgNoBg false 2 [(idEffect, ())] [] []).collected.length).map
        (fun k : Nat => (k : Int)) :=
  (c1_index_monotone cfgNoBg false 2 [(idEffect, ())] [] []).2
    (by
      intro es hes
      rw [List.mem_singleton] at hes
      subst hes
      intro s f l t
      rfl)

/-- C2: duration resolution.  An explicit positive duration gives
`totalFrames = fps * durationSec` (150 for fps 30, duration 5); otherwise a
video background's successful probe gives `round(probedSeconds * fps)` (120
for 4.0s at fps 30); a failed probe (`probeVideoDuration` returns a
non-positive value) gives the `INT_MAX` sentinel, and that unbounded run's
stage-0 worker processes exactly one frame per source frame, stops at
source exhaustion and records it; with neither an explicit duration nor a
video background, `generate` returns false. -/
theorem c2_duration_resolution :
    (∀ (isVideo : Bool) (d fps : Int) (probe : ℚ), 0 < d →
      resolveTotalFrames isVideo d fps probe = some (fps * d)) ∧
    resolveTotalFrames false 5 30 0 = some 150 ∧
    (∀ (d fps : Int) (probe : ℚ), d ≤ 0 → 0 < probe →
      resolveTotalFrames true d fps probe = some (cppRound (probe * (fps : ℚ)))) ∧
    resolveTotalFrames true (-1) 30 4 = some 120 ∧
    (∀ (d fps : Int) (probe : ℚ), d ≤ 0 → probe ≤ 0 →
      resolveTotalFrames true d fps probe = some INT_MAX) ∧
    (∀ (σ : Type) (cfg : GenCfg) (e : EffectModel σ) (s : σ) (bg : Frame)
        (src : List Frame), cfg.isVideo = true → cfg.hasBackground = true →
      src.length < INT_MAX.toNat →
      (runStage0Loop cfg e true INT_MAX INT_MAX.toNat 0 s bg src).trace.length
        = src.length ∧
      (runStage0Loop cfg e true INT_MAX INT_MAX.toNat 0 s bg src).ended = true ∧
      (runStage0Loop cfg e true INT_MAX INT_MAX.toNat 0 s bg src).finalIndex
        = src.length) ∧
    (∀ (σ : Type) (cfg : GenCfg) (warmup : ℚ)
        (effects : List (EffectModel σ × σ)) (d : Int) (probe : ℚ) (oo : Bool)
        (bg : Frame) (src : List Frame), cfg.isVideo = false → d ≤ 0 →
      (generateRun cfg warmup effects d probe oo bg src).1 = false) := by
  refine ⟨?_, ?_, ?_, ?_, ?_, ?_, ?_⟩
  · intro isVideo d fps probe hd
    rw [resolveTotalFrames, if_neg (by intro h; omega), if_pos hd]
  · rw [resolveTotalFrames, if_neg (by simp), if_pos (by norm_num)]
    norm_num
  · intro d fps probe hd hp
    rw [resolveTotalFrames, if_pos ⟨rfl, hd⟩, if_pos hp]
  · rw [resolveTotalFrames, if_pos ⟨rfl, by norm_num⟩, if_pos (by norm_num),
      cppRound_nonneg (by positivity)]
    norm_num
  · intro d fps probe hd hp
    rw [resolveTotalFrames, if_pos ⟨rfl, hd⟩, if_neg (by exact not_lt.mpr hp)]
  · intro σ cfg e s bg src hv hb hlen
    obtain ⟨h1, h2, h3⟩ := stage0_auto_exhaust cfg e INT_MAX hv hb src
      INT_MAX.toNat 0 s bg hlen
    exact ⟨h1, h2, by rw [h3]; ring⟩
  · intro σ cfg warmup effects d probe oo bg src hv hd
    match effects with
    | [] => rfl
    | e :: es =>
      have hres : resolveTotalFrames cfg.isVideo d cfg.fps probe = none := by
        rw [resolveTotalFrames, if_neg (by simp [hv]), if_neg (by omega)]
      simp only [generateRun, hres]

/-- Witness for C2 at fps 30, duration 5. -/
theorem c2_witness :
    0 < (5 : Int) ∧ resolveTotalFrames true 5 30 0 = some (30 * 5) :=
  ⟨by decide, c2_duration_resolution.1 true 5 30 0 (by decide)⟩

/-! ## C7: source exhaustion policy -/

lemma generateRun_success {σ : Type} (cfg : GenCfg) (warmup : ℚ)
    (e : EffectModel σ) (s : σ) (es : List (EffectModel σ × σ)) (d : Int)
    (probe : ℚ) (bg : Frame) (src : List Frame) (tf : Int)
    (inited : List (EffectModel σ × σ))
    (hres : resolveTotalFrames cfg.isVideo d cfg.fps probe = some tf)
    (hinit : initEffects cfg warmup tf ((e, s) :: es) = some inited) :
    (generateRun cfg warmup ((e, s) :: es) d probe true bg src).1 = true := by
  simp only [generateRun, hres, hinit, if_true]

/-- C7 (amended): a short/empty background read is not an error.  In a
bounded run the stage-0 worker still produces all `totalFrames` frames,
silently reusing the unchanged background buffer (the last successfully
read frame) once the source is exhausted — no warning is emitted (the only
exhaustion message, `Input video ended`, is printed only for auto-detect
runs).  In an unbounded run the worker stops exactly at exhaustion, records
the frame count, flags `sourceEnded`, the end packet reaches the collector,
and `generate` completes normally (returns true). -/
theorem c7_exhaustion_policy {σ : Type} (cfg : GenCfg)
    (hv : cfg.isVideo = true) (hb : cfg.hasBackground = true) :
    (∀ (e : EffectModel σ) (s : σ) (tf : Int) (src : List Frame) (bg : Frame),
      (runStage0Loop cfg e false tf tf.toNat 0 s bg src).trace.length
        = tf.toNat ∧
      (runStage0Loop cfg e false tf tf.toNat 0 s bg src).trace.map (·.fr) =
        (src ++ List.replicate (tf.toNat - src.length)
          (src.getLastD bg)).take tf.toNat ∧
      (runStage0Loop cfg e false tf tf.toNat 0 s bg src).ended = false) ∧
    (∀ (e : EffectModel σ) (s : σ) (tf : Int) (src : List Frame) (bg : Frame),
      src.length < tf.toNat →
      (runStage0Loop cfg e true tf tf.toNat 0 s bg src).trace.length
        = src.length ∧
      (runStage0Loop cfg e true tf tf.toNat 0 s bg src).ended = true ∧
      (runStage0Loop cfg e true tf tf.toNat 0 s bg src).finalIndex
        = src.length) ∧
    (∀ (auto : Bool) (tf : Int) (e : EffectModel σ) (s : σ)
        (rest : List (EffectModel σ × σ)) (bg : Frame) (src : List Frame),
      ∃ fin : List FramePacket, (runStagesAll cfg auto tf rest
        ((runStage0Loop cfg e auto tf tf.toNat 0 s bg src).outs ++
          [endPacket])).2.2 = fin ++ [endPacket]) ∧
    (∀ (warmup : ℚ) (e : EffectModel σ) (s : σ)
        (es : List (EffectModel σ × σ)) (d : Int) (probe : ℚ) (bg : Frame)
        (src : List Frame) (tf : Int) (inited : List (EffectModel σ × σ)),
      resolveTotalFrames cfg.isVideo d cfg.fps probe = some tf →
      initEffects cfg warmup tf ((e, s) :: es) = some inited →
      (generateRun cfg warmup ((e, s) :: es) d probe true bg src).1 = true) := by
  refine ⟨?_, ?_, ?_, ?_⟩
  · intro e s tf src bg
    obtain ⟨h1, h2, h3⟩ := stage0_bounded_run cfg e tf tf.toNat 0 s bg src
    exact ⟨h1, stage0_bounded_holds_last cfg e tf hv hb src tf.toNat 0 s bg, h3⟩
  · intro e s tf src bg hlen
    obtain ⟨h1, h2, h3⟩ := stage0_auto_exhaust cfg e tf hv hb src tf.toNat 0 s bg hlen
    exact ⟨h1, h2, by rw [h3]; ring⟩
  · intro auto tf e s rest bg src
    have hne0 := stage0_outs_nonEnd cfg e auto tf tf.toNat 0 s bg src
    obtain ⟨n, hcons⟩ := stage0_trace_consecutive cfg e auto tf tf.toNat 0 s bg src
    have hsub0 := stage0_outs_sublist_trace cfg e auto tf tf.toNat 0 s bg src
    rw [hcons] at hsub0
    have hnodup0 : (idxList (runStage0Loop cfg e auto tf tf.toNat 0 s bg
        src).outs).Nodup :=
      ((intRange_pairwise_lt 0 n).sublist hsub0).imp (fun h => ne_of_lt h)
    obtain ⟨fin, hfin, -, -, -⟩ := runStagesAll_spec cfg auto tf rest _ hne0 hnodup0
    exact ⟨fin, hfin⟩
  · intro warmup e s es d probe bg src tf inited hres hinit
    exact generateRun_success cfg warmup e s es d probe bg src tf inited hres hinit

/-- A tiny 1x1, 1 fps configuration with a video background. -/
def c7cfg : GenCfg := ⟨1, 1, 1, 0, 1, true, true⟩

lemma warmup_zero_frames : cppRound (max (0:ℚ) 0 * ((1:Int):ℚ)) = 0 := by
  rw [max_self, zero_mul, cppRound_nonneg le_rfl]
  norm_num

/-- Counterexample to C7 as stated: a bounded 2-frame run whose 1-frame
source is exhausted after frame 0.  The run completes (result true), the
second frame reuses the last read frame, and the complete message trace
contains no warning about the exhaustion — `filter mentionsSourceExhaustion`
is empty, and the trace consists solely of the startup, progress and
completion messages every bounded run prints. -/
theorem c7_counterexample :
    generateRun c7cfg 0 [(idEffect, ())] 2 0 true [9, 9, 9] [[1, 2, 3]] =
      (true, [.msgFFmpegPath, .msgGenerating 2, .openOutput, .spawnWorker 0,
        .msgProgress 1, .msgProgress 2, .closeOutput, .msgVideoSaved]) ∧
    (generateRun c7cfg 0 [(idEffect, ())] 2 0 true [9, 9, 9] [[1, 2, 3]]).2.filter
      mentionsSourceExhaustion = [] ∧
    (runStage0Loop c7cfg idEffect false 2 2 0 () [9, 9, 9] [[1, 2, 3]]).trace.map
      (·.fr) = [[1, 2, 3], [1, 2, 3]] := by
  have hres : resolveTotalFrames c7cfg.isVideo 2 c7cfg.fps 0 = some 2 := rfl
  have hinit : initEffects c7cfg 0 2 [(idEffect, ())] = some [(idEffect, ())] := rfl
  have hgen : generateRun c7cfg 0 [(idEffect, ())] 2 0 true [9, 9, 9] [[1, 2, 3]] =
      (true, [.msgFFmpegPath, .msgGenerating 2, .openOutput, .spawnWorker 0,
        .msgProgress 1, .msgProgress 2, .closeOutput, .msgVideoSaved]) := by
    simp only [generateRun, hres, hinit]
    rw [show (max (0:ℚ) 0 * (c7cfg.fps : ℚ)) = (max (0:ℚ) 0 * ((1:Int):ℚ)) from rfl,
      warmup_zero_frames]
    rfl
  refine ⟨hgen, ?_, rfl⟩
  rw [hgen]
  rfl

/-- Witness for the amended C7: an unbounded run over a one-frame source
stops after exactly one frame and flags the exhaustion. -/
theorem c7_witness :
    (runStage0Loop c7cfg idEffect true 5 (5 : Int).toNat 0 () [9, 9, 9]
      [[1, 2, 3]]).trace.length = ([[1, 2, 3]] : List Frame).length ∧
    (runStage0Loop c7cfg idEffect true 5 (5 : Int).toNat 0 () [9, 9, 9]
      [[1, 2, 3]]).ended = true := by
  obtain ⟨h1, h2, -⟩ := (c7_exhaustion_policy c7cfg rfl rfl).2.1 idEffect () 5
    [[1, 2, 3]] [9, 9, 9] (by decide)
  exact ⟨h1, h2⟩

/-! ## C6: drop / time-advance independence -/

lemma effectStep_count {σ : Type} (cfg : GenCfg) (e : EffectModel σ)
    (auto : Bool) (tf : Int) (b : Bool) (s : σ) (n : Nat) (f : Frame) (l : Int) :
    effectStep cfg (countUpdates e) auto tf b (s, n) f l =
      (((effectStep cfg e auto tf b s f l).1, n + 1),
        (effectStep cfg e auto tf b s f l).2.1,
        (effectStep cfg e auto tf b s f l).2.2) := rfl

lemma effectStep_dropVariant {σ : Type} {e e' : EffectModel σ}
    (h : DropVariant e e') (cfg : GenCfg) (auto : Bool) (tf : Int) (b : Bool)
    (s : σ) (f : Frame) (l : Int) :
    (effectStep cfg e auto tf b s f l).1 = (effectStep cfg e' auto tf b s f l).1 ∧
    (effectStep cfg e auto tf b s f l).2.1 =
      (effectStep cfg e' auto tf b s f l).2.1 := by
  obtain ⟨hr, hu, hp⟩ := h
  simp only [effectStep, hr, hu]
  constructor
  · rw [(hp _ _ _ _).1]
  · exact (hp _ _ _ _).2

lemma stageK_count {σ : Type} (cfg : GenCfg) (e : EffectModel σ) (auto : Bool)
    (tf : Int) :
    ∀ (fuel : Nat) (s : σ) (n : Nat) (inputs : List FramePacket),
    (runStageKLoop cfg (countUpdates e) auto tf fuel (s, n) inputs).trace =
      (runStageKLoop cfg e auto tf fuel s inputs).trace ∧
    (runStageKLoop cfg (countUpdates e) auto tf fuel (s, n) inputs).state =
      ((runStageKLoop cfg e auto tf fuel s inputs).state,
        n + (runStageKLoop cfg e auto tf fuel s inputs).trace.length) := by
  intro fuel
  induction fuel with
  | zero => intro s n inputs; exact ⟨rfl, by simp [runStageKLoop_zero]⟩
  | succ fuel ih =>
    intro s n inputs
    match inputs with
    | [] => exact ⟨rfl, by simp [runStageKLoop_nil]⟩
    | pkt :: rest =>
      by_cases hend : pkt.isEnd = true
      · rw [runStageKLoop_end cfg (countUpdates e) auto tf fuel (s, n) pkt rest hend,
          runStageKLoop_end cfg e auto tf fuel s pkt rest hend]
        exact ⟨rfl, by simp⟩
      · rw [Bool.not_eq_true] at hend
        rw [runStageKLoop_cons cfg (countUpdates e) auto tf fuel (s, n) pkt rest hend,
          runStageKLoop_cons cfg e auto tf fuel s pkt rest hend]
        dsimp only
        rw [effectStep_count]
        dsimp only
        obtain ⟨h1, h2⟩ := ih (effectStep cfg e auto tf true s pkt.frame
          pkt.frameIndex).1 (n + 1) rest
        refine ⟨by rw [h1], ?_⟩
        rw [h2]
        simp only [List.length_cons]
        rw [Prod.mk.injEq]
        exact ⟨rfl, by omega⟩

lemma stage0_count {σ : Type} (cfg : GenCfg) (e : EffectModel σ) (auto : Bool)
    (tf : Int) :
    ∀ (fuel : Nat) (i : Int) (s : σ) (n : Nat) (bg : Frame) (src : List Frame),
    (runStage0Loop cfg (countUpdates e) auto tf fuel i (s, n) bg src).trace =
      (runStage0Loop cfg e auto tf fuel i s bg src).trace ∧
    (runStage0Loop cfg (countUpdates e) auto tf fuel i (s, n) bg src).state =
      ((runStage0Loop cfg e auto tf fuel i s bg src).state,
        n + (runStage0Loop cfg e auto tf fuel i s bg src).trace.length) := by
  intro fuel
  induction fuel with
  | zero => intro i s n bg src; exact ⟨rfl, by simp [runStage0Loop]⟩
  | succ fuel ih =>
    intro i s n bg src
    by_cases hcond : ((cfg.isVideo && cfg.hasBackground) && src.isEmpty && auto)
      = true
    · rw [runStage0Loop, if_pos hcond, runStage0Loop, if_pos hcond]
      exact ⟨rfl, by simp⟩
    · rw [runStage0Loop, if_neg hcond, runStage0Loop, if_neg hcond]
      dsimp only
      rw [effectStep_count]
      dsimp only
      obtain ⟨h1, h2⟩ := ih (i + 1)
        (effectStep cfg e auto tf cfg.hasBackground s
          (if cfg.hasBackground = true then
            (if (cfg.isVideo && cfg.hasBackground) = true then src.headD bg else bg)
            else zeroFrame cfg) i).1 (n + 1)
        (if (cfg.isVideo && cfg.hasBackground) = true then src.headD bg else bg)
        (if (cfg.isVideo && cfg.hasBackground) = true then src.tail else src)
      refine ⟨by rw [h1], ?_⟩
      rw [h2]
      simp only [List.length_cons]
      rw [Prod.mk.injEq]
      exact ⟨rfl, by omega⟩

lemma stageK_dropVariant {σ : Type} {e e' : EffectModel σ} (h : DropVariant e e')
    (cfg : GenCfg) (auto : Bool) (tf : Int) :
    ∀ (fuel : Nat) (s : σ) (inputs : List FramePacket),
    traceIdx (runStageKLoop cfg e auto tf fuel s inputs).trace =
      traceIdx (runStageKLoop cfg e' auto tf fuel s inputs).trace ∧
    (runStageKLoop cfg e auto tf fuel s inputs).trace.length =
      (runStageKLoop cfg e' auto tf fuel s inputs).trace.length := by
  intro fuel
  induction fuel with
  | zero => intro s inputs; exact ⟨rfl, rfl⟩
  | succ fuel ih =>
    intro s inputs
    match inputs with
    | [] => exact ⟨rfl, rfl⟩
    | pkt :: rest =>
      by_cases hend : pkt.isEnd = true
      · rw [runStageKLoop_end cfg e auto tf fuel s pkt rest hend,
          runStageKLoop_end cfg e' auto tf fuel s pkt rest hend]
        exact ⟨rfl, rfl⟩
      · rw [Bool.not_eq_true] at hend
        rw [runStageKLoop_cons cfg e auto tf fuel s pkt rest hend,
          runStageKLoop_cons cfg e' auto tf fuel s pkt rest hend]
        dsimp only
        rw [traceIdx_cons_rec, traceIdx_cons_rec,
          (effectStep_dropVariant h cfg auto tf true s pkt.frame pkt.frameIndex).1]
        obtain ⟨h1, h2⟩ := ih (effectStep cfg e' auto tf true s pkt.frame
          pkt.frameIndex).1 rest
        exact ⟨by rw [h1], by simp only [List.length_cons]; rw [h2]⟩

lemma stage0_dropVariant {σ : Type} {e e' : EffectModel σ} (h : DropVariant e e')
    (cfg : GenCfg) (auto : Bool) (tf : Int) :
    ∀ (fuel : Nat) (i : Int) (s : σ) (bg : Frame) (src : List Frame),
    traceIdx (runStage0Loop cfg e auto tf fuel i s bg src).trace =
      traceIdx (runStage0Loop cfg e' auto tf fuel i s bg src).trace ∧
    (runStage0Loop cfg e auto tf fuel i s bg src).trace.length =
      (runStage0Loop cfg e' auto tf fuel i s bg src).trace.length := by
  intro fuel
  induction fuel with
  | zero => intro i s bg src; exact ⟨rfl, rfl⟩
  | succ fuel ih =>
    intro i s bg src
    by_cases hcond : ((cfg.isVideo && cfg.hasBackground) && src.isEmpty && auto)
      = true
    · rw [runStage0Loop, if_pos hcond, runStage0Loop, if_pos hcond]
      exact ⟨rfl, rfl⟩
    · rw [runStage0Loop, if_neg hcond, runStage0Loop, if_neg hcond]
      dsimp only
      rw [traceIdx_cons_rec, traceIdx_cons_rec,
        (effectStep_dropVariant h cfg auto tf cfg.hasBackground s _ i).1]
      obtain ⟨h1, h2⟩ := ih (i + 1)
        (effectStep cfg e' auto tf cfg.hasBackground s
          (if cfg.hasBackground = true then
            (if (cfg.isVideo && cfg.hasBackground) = true then src.headD bg else bg)
            else zeroFrame cfg) i).1
        (if (cfg.isVideo && cfg.hasBackground) = true then src.headD bg else bg)
        (if (cfg.isVideo && cfg.hasBackground) = true then src.tail else src)
      exact ⟨by rw [h1], by simp only [List.length_cons]; rw [h2]⟩

/-- C6: drop and time-advance are independent.  (1) A frame a stage drops
never enters that stage's output queue and never reaches the collector (so
it is never counted as written).  (2)(3) Instrumenting any effect with an
`update()` counter, a worker loop calls `update` exactly once per processed
frame: the final count equals the trace length, one record per frame.
(4) Two effects differing only in their drop decisions process exactly the
same frame indices, the same number of times — the update-call count is
unchanged by dropping. -/
theorem c6_drop_advance_independence {σ : Type} (cfg : GenCfg) (auto : Bool)
    (tf : Int) :
    (∀ (effects : List (EffectModel σ × σ)) (bg0 : Frame) (src : List Frame),
      (∀ (j : Int) (f : Frame),
        (⟨j, f, true⟩ : StageRec) ∈
          (runPipelineFull cfg auto tf effects bg0 src).stage0Trace →
        j ∉ idxList (runPipelineFull cfg auto tf effects bg0 src).stage0Out ∧
        j ∉ idxList (runPipelineFull cfg auto tf effects bg0 src).collected) ∧
      (∀ pr ∈ List.zip (runPipelineFull cfg auto tf effects bg0 src).stagesTrace
          (runPipelineFull cfg auto tf effects bg0 src).stagesOut,
        ∀ (j : Int) (f : Frame), (⟨j, f, true⟩ : StageRec) ∈ pr.1 →
          j ∉ idxList pr.2 ∧
          j ∉ idxList (runPipelineFull cfg auto tf effects bg0 src).collected)) ∧
    (∀ (e : EffectModel σ) (fuel : Nat) (s : σ) (inputs : List FramePacket),
      (runStageKLoop cfg (countUpdates e) auto tf fuel (s, 0) inputs).state.2 =
        (runStageKLoop cfg e auto tf fuel s inputs).trace.length) ∧
    (∀ (e : EffectModel σ) (fuel : Nat) (i : Int) (s : σ) (bg : Frame)
        (src : List Frame),
      (runStage0Loop cfg (countUpdates e) auto tf fuel i (s, 0) bg src).state.2 =
        (runStage0Loop cfg e auto tf fuel i s bg src).trace.length) ∧
    (∀ (e e' : EffectModel σ), DropVariant e e' →
      (∀ (fuel : Nat) (s : σ) (inputs : List FramePacket),
        traceIdx (runStageKLoop cfg e auto tf fuel s inputs).trace =
          traceIdx (runStageKLoop cfg e' auto tf fuel s inputs).trace ∧
        (runStageKLoop cfg e auto tf fuel s inputs).trace.length =
          (runStageKLoop cfg e' auto tf fuel s inputs).trace.length) ∧
      (∀ (fuel : Nat) (i : Int) (s : σ) (bg : Frame) (src : List Frame),
        traceIdx (runStage0Loop cfg e auto tf fuel i s bg src).trace =
          traceIdx (runStage0Loop cfg e' auto tf fuel i s bg src).trace ∧
        (runStage0Loop cfg e auto tf fuel i s bg src).trace.length =
          (runStage0Loop cfg e' auto tf fuel i s bg src).trace.length)) := by
  refine ⟨?_, ?_, ?_, ?_⟩
  · intro effects bg0 src
    match effects with
    | [] =>
      constructor
      · intro j f hj
        exact absurd hj (by simp [runPipelineFull])
      · intro pr hpr
        exact absurd hpr (by simp [runPipelineFull])
    | (e0, s0) :: rest =>
      rw [runPipelineFull]
      dsimp only
      have hne0 := stage0_outs_nonEnd cfg e0 auto tf tf.toNat 0 s0 bg0 src
      obtain ⟨n, hcons⟩ := stage0_trace_consecutive cfg e0 auto tf tf.toNat 0 s0
        bg0 src
      have hsub0 := stage0_outs_sublist_trace cfg e0 auto tf tf.toNat 0 s0 bg0 src
      rw [hcons] at hsub0
      have hnodup0 : (idxList (runStage0Loop cfg e0 auto tf tf.toNat 0 s0 bg0
          src).outs).Nodup :=
        ((intRange_pairwise_lt 0 n).sublist hsub0).imp (fun h => ne_of_lt h)
      obtain ⟨fin, hfin, hfin_ne, hfin_sub, hfin_zip⟩ :=
        runStagesAll_spec cfg auto tf rest _ hne0 hnodup0
      constructor
      · intro j f hj
        have h1 := stage0_dropped_not_out cfg e0 auto tf tf.toNat 0 s0 bg0 src
          j f hj
        refine ⟨h1, ?_⟩
        rw [hfin, collectorLoop_append_end cfg auto tf fin hfin_ne]
        intro hmem
        exact h1 (hfin_sub.subset hmem)
      · intro pr hpr j f hj
        obtain ⟨hp1, hp2⟩ := hfin_zip pr hpr j f hj
        refine ⟨hp1, ?_⟩
        rw [hfin, collectorLoop_append_end cfg auto tf fin hfin_ne]
        exact hp2
  · intro e fuel s inputs
    rw [(stageK_count cfg e auto tf fuel s 0 inputs).2]
    simp
  · intro e fuel i s bg src
    rw [(stage0_count cfg e auto tf fuel i s 0 bg src).2]
    simp
  · intro e e' h
    exact ⟨stageK_dropVariant h cfg auto tf, stage0_dropVariant h cfg auto tf⟩

/-- Witness for C6: in the dropping run, the record for frame 1 is in the
stage-0 trace with the drop flag set, and index 1 reaches neither the
stage-0 output nor the collector. -/
theorem c6_witness :
    (⟨1, [0, 0, 0], true⟩ : StageRec) ∈
      (runPipelineFull cfgNoBg false 3 [(dropIdx1Effect, ())] [] []).stage0Trace ∧
    (1 : Int) ∉
      idxList (runPipelineFull cfgNoBg false 3 [(dropIdx1Effect, ())] [] []).collected :=
  ⟨by decide,
    (((c6_drop_advance_independence cfgNoBg false 3).1 [(dropIdx1Effect, ())] []
      []).1 1 [0, 0, 0] (by decide)).2⟩
